import Mathlib

/-!
A shallow embedding of `hwbchat.c` and the properties proved about it.

The program is embedded as state-passing functions over a state `St` that
carries the open-log flag, the logical clock (number of `time()` calls), the
unread part of standard input and the chronological trace of the effects the
program performed.  Everything the program reads from its host (working
directory, lock file, pseudo-files, directory listing, `statvfs`, the exit
status of `ping`, the C library's clock and text renderings) is a field of
`World` / `Host`, so every theorem quantifies over all hosts.
-/

set_option maxRecDepth 100000

namespace Hwbchat

/-! ## C library pieces used by the program -/

/-- Broken-down local time as filled in by `localtime_r` (`struct tm`), for
times from the year 1900 on: `tm_year` counts the years since 1900. -/
structure Tm where
  tm_year : Nat
  tm_mon : Nat
  tm_mday : Nat
  tm_hour : Nat
  tm_min : Nat
  tm_sec : Nat
deriving DecidableEq

/-- Rendering of `%lu` / `%llu`: the decimal digits of an unsigned value. -/
def fmtU (n : Nat) : List Char := Nat.toDigits 10 n

/-- Rendering of `%d` / `%ld`: a minus sign for negative values, then the digits. -/
def fmtD (i : Int) : List Char :=
  if i < 0 then '-' :: fmtU i.natAbs else fmtU i.natAbs

/-- Rendering of `%m`, `%d`, `%H`, `%M`, `%S`: decimal, zero-padded to two digits. -/
def pad2 (n : Nat) : List Char :=
  if n < 10 then '0' :: fmtU n else fmtU n

/-- The call `strftime(ts, sizeof(ts), "%Y-%m-%d %H:%M:%S", &tm_now)`;
`tm_year` counts years since 1900 and `tm_mon` months since January. -/
def strftime (t : Tm) : List Char :=
  fmtU (t.tm_year + 1900) ++ '-' :: pad2 (t.tm_mon + 1) ++ '-' :: pad2 t.tm_mday
    ++ ' ' :: pad2 t.tm_hour ++ ':' :: pad2 t.tm_min ++ ':' :: pad2 t.tm_sec

/-- The C string held in a byte buffer: the bytes before the first NUL. -/
def cstr (buf : List Char) : List Char := buf.takeWhile (fun c => c ≠ '\x00')

/-- The predicate `isspace` in the C locale. -/
def isspace (c : Char) : Bool :=
  c = ' ' || c = '\t' || c = '\n' || c = '\x0b' || c = '\x0c' || c = '\r'

/-- Decimal digit test. -/
def isdigit (c : Char) : Bool := decide ('0' ≤ c) && decide (c ≤ '9')

/-- Value of a run of decimal digits, most significant first. -/
def digitsVal (ds : List Char) : Nat :=
  ds.foldl (fun acc c => 10 * acc + (c.toNat - 48)) 0

/-- Largest `unsigned long` (LP64). -/
def ULONG_MAX : Nat := 2 ^ 64 - 1

/-- Largest `long` (LP64). -/
def LONG_MAX : Int := 2 ^ 63 - 1

/-- Smallest `long` (LP64). -/
def LONG_MIN : Int := -(2 ^ 63)

/-- The successive buffers that repeated `fgets(buf, size, f)` calls return
until `NULL`: each holds at most `size - 1` bytes and ends after its first
newline.  `room` is the number of bytes the current buffer can still take and
`cur` the bytes already in it, newest first. -/
def fgetsAll (size : Nat) : Nat → List Char → List Char → List (List Char)
  | _, cur, [] => if cur = [] then [] else [cur.reverse]
  | room, cur, c :: rest =>
    if c = '\n' ∨ room ≤ 1 then (c :: cur).reverse :: fgetsAll size (size - 1) [] rest
    else fgetsAll size (room - 1) (c :: cur) rest

/-- The buffers produced by `while (fgets(line, size, f))` over a whole file. -/
def fgetsLines (size : Nat) (content : List Char) : List (List Char) :=
  fgetsAll size (size - 1) [] content

/-- The statement `line[strcspn(line, "\r\n")] = 0` followed by a read of
`line` as a C string. -/
def stripEol (buf : List Char) : List Char :=
  (cstr buf).takeWhile (fun c => c ≠ '\r' ∧ c ≠ '\n')

/-- The conversion `%lu` of `sscanf`: skip white space, accept an optional
sign, then at least one decimal digit; the value is converted as by `strtoul`
(clamped to `ULONG_MAX` on overflow, negated modulo `2^64` after a minus). -/
def scan_lu (input : List Char) : Option Nat :=
  let s := input.dropWhile isspace
  let neg := s.head? = some '-'
  let s := if s.head? = some '-' ∨ s.head? = some '+' then s.tail else s
  let ds := s.takeWhile isdigit
  if ds = [] then none
  else
    let v := digitsVal ds
    if v > ULONG_MAX then some ULONG_MAX
    else if neg then some ((2 ^ 64 - v) % 2 ^ 64) else some v

/-- The call `sscanf(line, fmt, &x) == 1` for a format with a single `%lu`
conversion: white space in the format skips any white space of the input,
every other format character must match the next input character, and the
result is the converted value when the conversion succeeds (what follows the
conversion in the format cannot change the count). -/
def sscanf_lu : List Char → List Char → Option Nat
  | [], _ => none
  | '%' :: _, input => scan_lu input
  | c :: fmt, input =>
    if isspace c then sscanf_lu fmt (input.dropWhile isspace)
    else match input with
      | [] => none
      | d :: rest => if d = c then sscanf_lu fmt rest else none

/-- The call `strtol(s, &end, 10)`: the value and the unparsed rest `end`
points to.  Leading white space and one optional sign are accepted; without
any digit nothing is consumed (`end == s`, value 0); the value is clamped to
the range of `long`. -/
def strtol (s : List Char) : Int × List Char :=
  let t := s.dropWhile isspace
  let neg := t.head? = some '-'
  let u := if t.head? = some '-' ∨ t.head? = some '+' then t.tail else t
  let ds := u.takeWhile isdigit
  if ds = [] then (0, s)
  else
    let v : Int := if neg then -(digitsVal ds : Int) else (digitsVal ds : Int)
    (max LONG_MIN (min LONG_MAX v), u.dropWhile isdigit)

/-! ## The host -/

/-- Result of `statvfs`: the four fields the program reads. -/
structure Statvfs where
  f_frsize : Nat
  f_blocks : Nat
  f_bfree : Nat
  f_bavail : Nat
deriving DecidableEq

/-- The host as one report sees it. An `Except.error e` is a failed call with
`errno = e`. -/
structure Host where
  /-- Result of `fopen(path, "r")`: the content of the file. -/
  fopen : List Char → Except Nat (List Char)
  /-- Result of `statvfs("/", &vfs)`. -/
  statvfs : Except Nat Statvfs
  /-- Result of `opendir("/proc")` and the names successive `readdir` calls return. -/
  readdir : Except Nat (List (List Char))
  /-- Return value of `system("ping ...")`. -/
  ping : Int

/-- Everything outside the program. -/
structure World where
  /-- `errno` of a failing `fopen(LOG_PATH, "a")`, `none` when it succeeds. -/
  log_errno : Option Nat
  /-- Local time of the `n`-th `time(NULL)` call. -/
  localtime : Nat → Tm
  /-- Text of `strerror(errno)`. -/
  strerror : Nat → List Char
  /-- The floating-point part of `log_uptime`: on the content of the uptime
  file, `none` when `fscanf(f, "%lf %lf", ...)` does not return 2, else the
  renderings of `up` under `%.0f` and of `up / 3600.0` under `%.2f`. -/
  scan_uptime : List Char → Option (List Char × List Char)
  /-- Result of `getcwd`. -/
  getcwd : Except Nat (List Char)
  /-- Whether `stat(path, &st) == 0`. -/
  stat : List Char → Bool
  /-- The host at the logical time a report starts. -/
  host : Nat → Host
  /-- The bytes of standard input. -/
  stdin : List Char

/-! ## Program state and effects -/

/-- One observable effect of the program. -/
inductive Event where
  /-- One `log_line` call: stamp and message; see `Event.bytes`. -/
  | log (ts msg : List Char)
  | stderr (text : List Char)
  | stdout (text : List Char)
  | getcwd
  | stat (path : List Char)
  | fopen (path : List Char)
  | statvfs (path : List Char)
  | opendir (path : List Char)
  | system (cmd : List Char)
  /-- One `getchar` call and what it returned (`none` is `EOF`). -/
  | getchar (r : Option Char)
deriving DecidableEq

/-- Program state. -/
structure St where
  /-- Whether `g_log` is non-NULL. -/
  g_log : Bool
  /-- Number of `time(NULL)` calls so far. -/
  ticks : Nat
  /-- Unread bytes of standard input. -/
  stdin : List Char
  /-- Effects so far, oldest first. -/
  trace : List Event
deriving DecidableEq

/-- Bytes an event appends to the log file: `fprintf(g_log, "[%s] ", ts)`, the
formatted message, `fputc(\n)`. -/
def Event.bytes : Event → List Char
  | .log ts msg => '[' :: ts ++ ']' :: ' ' :: msg ++ ['\n']
  | _ => []

/-- Content appended to the log file by a trace. -/
def logBytes (t : List Event) : List Char := (t.map Event.bytes).flatten

/-- Messages logged by a trace, in order. -/
def logMsgs (t : List Event) : List (List Char) :=
  t.filterMap (fun e => match e with | .log _ msg => some msg | _ => none)

/-- Record an effect. -/
def emit (s : St) (e : Event) : St := { s with trace := s.trace ++ [e] }

/-- The directory the program must be run from. -/
def REQUIRED_DIR : List Char := "/opt/cataised/hbwchat".toList

/-- The log file. -/
def LOG_PATH : List Char := "/opt/cataised/hwbchat.log".toList

/-- The lock file. -/
def LOCK_PATH : List Char := "/tmp/hwbchat.lock".toList

/-- The function `log_line`; `msg` is the text `vfprintf(g_log, fmt, ap)` writes. -/
def log_line (w : World) (s : St) (msg : List Char) : St :=
  if !s.g_log then s
  else
    let ts := strftime (w.localtime s.ticks)
    { s with ticks := s.ticks + 1, trace := s.trace ++ [Event.log ts msg] }

/-- The function `file_exists`. -/
def file_exists (w : World) (s : St) (path : List Char) : Bool × St :=
  (w.stat path, emit s (.stat path))

/-- The function `ensure_running_from_required_dir`. -/
def ensure_running_from_required_dir (w : World) (s : St) : Bool × St :=
  let s := emit s .getcwd
  match w.getcwd with
  | .error e => (false, log_line w s ("ERROR: getcwd failed: ".toList ++ w.strerror e))
  | .ok cwd =>
    if cwd = REQUIRED_DIR then
      (true, log_line w s ("OK: Running from required directory: ".toList ++ cwd))
    else
      (false, log_line w s ("FAIL: Not running from required directory. CWD=".toList ++ cwd
        ++ " REQUIRED=".toList ++ REQUIRED_DIR))

/-- The function `log_uptime`. -/
def log_uptime (w : World) (h : Host) (s : St) : St :=
  let s := emit s (.fopen "/proc/uptime".toList)
  match h.fopen "/proc/uptime".toList with
  | .error e => log_line w s ("ERROR: fopen /proc/uptime: ".toList ++ w.strerror e)
  | .ok content =>
    match w.scan_uptime content with
    | some (up, hours) =>
      log_line w s ("Uptime: ".toList ++ up ++ " seconds (".toList ++ hours ++ " hours)".toList)
    | none => log_line w s "ERROR: failed to parse /proc/uptime".toList

/-- The three values `log_disk_space_root` prints, in `unsigned long long`
arithmetic: total, used and available whole mebibytes. -/
def disk_mb (vfs : Statvfs) : Nat × Nat × Nat :=
  let block := vfs.f_frsize % 2 ^ 64
  let total := (block * (vfs.f_blocks % 2 ^ 64)) % 2 ^ 64
  let freeb := (block * (vfs.f_bfree % 2 ^ 64)) % 2 ^ 64
  let avail := (block * (vfs.f_bavail % 2 ^ 64)) % 2 ^ 64
  let used := (total + 2 ^ 64 - freeb) % 2 ^ 64
  (total / (1024 * 1024), used / (1024 * 1024), avail / (1024 * 1024))

/-- The function `log_disk_space_root`. -/
def log_disk_space_root (w : World) (h : Host) (s : St) : St :=
  let s := emit s (.statvfs "/".toList)
  match h.statvfs with
  | .error e => log_line w s ("ERROR: statvfs(\x27/\x27): ".toList ++ w.strerror e)
  | .ok vfs =>
    let r := disk_mb vfs
    log_line w s ("Disk (/): total=".toList ++ fmtU r.1 ++ " MB used=".toList ++ fmtU r.2.1
      ++ " MB avail=".toList ++ fmtU r.2.2 ++ " MB".toList)

/-- The five locals of `log_meminfo`. -/
structure MemVals where
  memTotal : Nat
  memFree : Nat
  memAvail : Nat
  swapTotal : Nat
  swapFree : Nat
deriving DecidableEq

/-- Body of the `while (fgets(...))` loop of `log_meminfo` for one line. -/
def meminfo_line (v : MemVals) (line : List Char) : MemVals :=
  match sscanf_lu "MemTotal: %lu kB".toList (cstr line) with
  | some x => { v with memTotal := x }
  | none =>
  match sscanf_lu "MemFree: %lu kB".toList (cstr line) with
  | some x => { v with memFree := x }
  | none =>
  match sscanf_lu "MemAvailable: %lu kB".toList (cstr line) with
  | some x => { v with memAvail := x }
  | none =>
  match sscanf_lu "SwapTotal: %lu kB".toList (cstr line) with
  | some x => { v with swapTotal := x }
  | none =>
  match sscanf_lu "SwapFree: %lu kB".toList (cstr line) with
  | some x => { v with swapFree := x }
  | none => v

/-- The scan of `log_meminfo` over the whole file, from all-zero locals. -/
def meminfo_scan (content : List Char) : MemVals :=
  (fgetsLines 256 content).foldl meminfo_line ⟨0, 0, 0, 0, 0⟩

/-- The function `log_meminfo`. -/
def log_meminfo (w : World) (h : Host) (s : St) : St :=
  let s := emit s (.fopen "/proc/meminfo".toList)
  match h.fopen "/proc/meminfo".toList with
  | .error e => log_line w s ("ERROR: fopen /proc/meminfo: ".toList ++ w.strerror e)
  | .ok content =>
    let v := meminfo_scan content
    let s := log_line w s ("Memory: MemTotal=".toList ++ fmtU (v.memTotal / 1024)
      ++ " MB MemAvailable=".toList ++ fmtU (v.memAvail / 1024)
      ++ " MB MemFree=".toList ++ fmtU (v.memFree / 1024) ++ " MB".toList)
    log_line w s ("Swap:   SwapTotal=".toList ++ fmtU (v.swapTotal / 1024)
      ++ " MB SwapFree=".toList ++ fmtU (v.swapFree / 1024) ++ " MB".toList)

/-- The test `strncmp(line, lit, strlen(lit)) == 0`. -/
def startsWith (lit line : List Char) : Bool := lit.isPrefixOf (cstr line)

/-- The function `log_os_and_cpu`. -/
def log_os_and_cpu (w : World) (h : Host) (s : St) : St :=
  let s := emit s (.fopen "/etc/os-release".toList)
  let s :=
    match h.fopen "/etc/os-release".toList with
    | .ok content =>
      match (fgetsLines 256 content).find? (startsWith "PRETTY_NAME=".toList) with
      | some line => log_line w s ("OS: ".toList ++ (stripEol line).drop 12)
      | none => s
    | .error e => log_line w s ("WARN: unable to read /etc/os-release: ".toList ++ w.strerror e)
  let s := emit s (.fopen "/proc/cpuinfo".toList)
  match h.fopen "/proc/cpuinfo".toList with
  | .ok content =>
    match (fgetsLines 256 content).find?
        (fun line => startsWith "model name".toList line || startsWith "Hardware".toList line) with
    | some line => log_line w s ("CPU: ".toList ++ stripEol line)
    | none => s
  | .error _ => s

/-- The `while ((de = readdir(d)) != NULL && count < max_entries)` loop of
`log_process_snapshot_limited` over the names `readdir` still has to return;
gives the final `count`. -/
def snapshot_loop (w : World) (h : Host) (max_entries : Int) :
    List (List Char) → Int → St → Int × St
  | [], count, s => (count, s)
  | name :: rest, count, s =>
    if count < max_entries then
      if (strtol name).2 ≠ [] then snapshot_loop w h max_entries rest count s
      else if (strtol name).1 ≤ 0 then snapshot_loop w h max_entries rest count s
      else
        let path := "/proc/".toList ++ fmtD (strtol name).1 ++ "/comm".toList
        let s := emit s (.fopen path)
        match h.fopen path with
        | .error _ => snapshot_loop w h max_entries rest count s
        | .ok content =>
          match fgetsLines 128 content with
          | [] => snapshot_loop w h max_entries rest count s
          | comm :: _ =>
            snapshot_loop w h max_entries rest (count + 1)
              (log_line w s ("  PID=".toList ++ fmtD (strtol name).1 ++ " COMM=".toList
                ++ stripEol comm))
    else (count, s)

/-- The function `log_process_snapshot_limited`. -/
def log_process_snapshot_limited (w : World) (h : Host) (max_entries : Int) (s : St) : St :=
  let s := emit s (.opendir "/proc".toList)
  match h.readdir with
  | .error e => log_line w s ("ERROR: opendir /proc: ".toList ++ w.strerror e)
  | .ok names =>
    let s := log_line w s ("Processes (snapshot, first ".toList ++ fmtD max_entries ++ "):".toList)
    let r := snapshot_loop w h max_entries names 0 s
    if r.1 = 0 then log_line w r.2 "  (no processes listed?)".toList else r.2

/-- The function `log_network_connections_hint`. -/
def log_network_connections_hint (w : World) (s : St) : St :=
  log_line w s ("Network: see /proc/net/tcp /proc/net/udp /proc/net/tcp6 /proc/net/udp6 ".toList
    ++ "for connections (not fully parsed here).".toList)

/-- The function `check_connectivity_basic`. -/
def check_connectivity_basic (w : World) (h : Host) (s : St) : Bool × St :=
  let s := emit s (.system "ping -c 1 -W 2 8.8.8.8 >/dev/null 2>&1".toList)
  if h.ping = 0 then (true, log_line w s "Connectivity: ping to 8.8.8.8 OK".toList)
  else (false, log_line w s ("Connectivity: ping to 8.8.8.8 FAILED (rc=".toList ++ fmtD h.ping
    ++ ")".toList))

/-- The marker that opens a report. -/
def BEGIN_REPORT : List Char := "---- BEGIN REPORT ----".toList

/-- The marker that closes a report. -/
def END_REPORT : List Char := "---- END REPORT ----".toList

/-- The function `write_report_once`; the host is the one at the logical
time the report starts. -/
def write_report_once (w : World) (s : St) : St :=
  let h := w.host s.ticks
  let s := log_line w s BEGIN_REPORT
  let s := log_os_and_cpu w h s
  let s := log_uptime w h s
  let s := log_disk_space_root w h s
  let s := log_meminfo w h s
  let s := log_process_snapshot_limited w h 20 s
  let s := log_network_connections_hint w s
  let s := (check_connectivity_basic w h s).2
  log_line w s END_REPORT

/-- One `getchar()` call. -/
def getchar (s : St) : Option Char × St :=
  match s.stdin with
  | [] => (none, emit s (.getchar none))
  | c :: rest => (some c, { emit s (.getchar (some c)) with stdin := rest })

/-- The loop `while ((d = getchar()) != \n && d != EOF) {}` on the unread
input: the `getchar` calls made and the input left. -/
def consume_rest : List Char → List Event × List Char
  | [] => ([.getchar none], [])
  | d :: rest =>
    if d = '\n' then ([.getchar (some d)], rest)
    else ((.getchar (some d)) :: (consume_rest rest).1, (consume_rest rest).2)

/-- The "consume rest of line" loop of `main` as a state change. -/
def consume_rest_of_line (s : St) : St :=
  { s with trace := s.trace ++ (consume_rest s.stdin).1, stdin := (consume_rest s.stdin).2 }

/-- The `for (;;)` menu loop of `main`, run for at most `fuel` iterations;
`none` when the fuel runs out before the loop is left. -/
def menu_loop (w : World) : Nat → St → Option St
  | 0, _ => none
  | fuel + 1, s =>
    let s := log_line w s "Menu: (r)efresh report, (q)uit".toList
    let s := emit s (.stdout "hwbchat> [r/q]: ".toList)
    match getchar s with
    | (none, s) => some s
    | (some c, s) =>
      let s := consume_rest_of_line s
      if c = 'q' ∨ c = 'Q' then some (log_line w s "User requested quit.".toList)
      else if c = 'r' ∨ c = 'R' then
        menu_loop w fuel (write_report_once w (log_line w s "User requested refresh report.".toList))
      else menu_loop w fuel (log_line w s ("Unknown command: ".toList ++ [c]))

/-- State at program start. -/
def St.init (w : World) : St := ⟨false, 0, w.stdin, []⟩

/-- The function `main` with `fuel` iterations allowed to the menu loop: the
exit status and the final state. -/
def main_fuel (w : World) (fuel : Nat) : Option (Int × St) :=
  let s := emit (St.init w) (.fopen LOG_PATH)
  match w.log_errno with
  | some e =>
    some (1, emit s (.stderr ("ERROR: cannot open log file ".toList ++ LOG_PATH ++ ": ".toList
      ++ w.strerror e ++ ['\n'])))
  | none =>
    let s := { s with g_log := true }
    let s := log_line w s "Program start.".toList
    let r := ensure_running_from_required_dir w s
    if !r.1 then
      some (1, log_line w r.2 "Exiting because CWD is not required directory.".toList)
    else
      let r := file_exists w r.2 LOCK_PATH
      if r.1 then
        some (1, log_line w r.2 ("Lock file exists (".toList ++ LOCK_PATH ++ "). Exiting.".toList))
      else
        let s := write_report_once w r.2
        match menu_loop w fuel s with
        | none => none
        | some s => some (0, log_line w s "Program exit.".toList)

/-- The function `main`: every iteration of the menu loop but the last reads
at least one byte, so one more iteration than there are input bytes suffices. -/
def main (w : World) : Option (Int × St) := main_fuel w (w.stdin.length + 1)

/-- Number of reports a trace holds: its `BEGIN REPORT` log lines. -/
def reportCount (t : List Event) : Nat := (logMsgs t).count BEGIN_REPORT


/-! ## Definitions used to state the properties -/

/-- The line the directory check logs when it fails. -/
def dirFailure (w : World) : List Char :=
  match w.getcwd with
  | .error e => "ERROR: getcwd failed: ".toList ++ w.strerror e
  | .ok cwd => "FAIL: Not running from required directory. CWD=".toList ++ cwd
      ++ " REQUIRED=".toList ++ REQUIRED_DIR

/-- A state with the log open and nothing done yet. -/
def St.fresh : St := ⟨true, 0, [], []⟩

/-- The messages an operation logs when run on its own. -/
def msgsOf (f : St → St) : List (List Char) := logMsgs (f St.fresh).trace

/-- The C library renders error texts and floating-point numbers on one line. -/
structure Sane (w : World) : Prop where
  strerror : ∀ e, '\n' ∉ w.strerror e
  uptime : ∀ c a b, w.scan_uptime c = some (a, b) → '\n' ∉ a ∧ '\n' ∉ b

/-- A message that stays on one line whenever the C library's renderings do. -/
def MsgOk (w : World) (m : List Char) : Prop := Sane w → '\n' ∉ m

/-- A message an inspector may log: on one line, and not starting with a dash
(so it is neither report marker). -/
def InspMsg (w : World) (m : List Char) : Prop := MsgOk w m ∧ m.head? ≠ some '-'

/-- An effect a report may have: a log line stamped by the clock whose message
satisfies `P`, or a read of a host source. -/
def EvOk (w : World) (P : List Char → Prop) : Event → Prop
  | .log ts m => (∃ k, ts = strftime (w.localtime k)) ∧ P m
  | .fopen _ => True
  | .statvfs _ => True
  | .opendir _ => True
  | .system _ => True
  | _ => False

/-- Two runs of one operation, from `s` to `s'` and from `t` to `t'`: both
keep the log open and the input untouched, only append report effects, and
log the same messages. -/
def Ext2 (w : World) (P : List Char → Prop) (s s' t t' : St) : Prop :=
  s'.g_log = true ∧ t'.g_log = true ∧ s'.stdin = s.stdin ∧ t'.stdin = t.stdin ∧
  ∃ ev ev', s'.trace = s.trace ++ ev ∧ t'.trace = t.trace ++ ev'
    ∧ logMsgs ev = logMsgs ev' ∧ ∀ e ∈ ev, EvOk w P e

/-- A host on which nothing can be read. -/
def deadHost : Host := ⟨fun _ => .error 2, .error 5, .error 13, 512⟩

/-- A world whose clock is stuck at 2026-11-01 09:05:00, with placeholder error
texts and an unreadable host. -/
def demoWorld (cwd : List Char) (lock : Bool) (input : List Char) : World :=
  ⟨none, fun _ => ⟨126, 10, 1, 9, 5, 0⟩, fun e => 'E' :: fmtU e, fun _ => none, .ok cwd,
    fun _ => lock, fun _ => deadHost, input⟩

/-- The messages between the two markers of a report on host `h`: what each
inspector logs on its own, in the order of `write_report_once`. -/
def reportBody (w : World) (h : Host) : List (List Char) :=
  msgsOf (log_os_and_cpu w h) ++ msgsOf (log_uptime w h) ++ msgsOf (log_disk_space_root w h)
    ++ msgsOf (log_meminfo w h) ++ msgsOf (log_process_snapshot_limited w h 20)
    ++ msgsOf (log_network_connections_hint w)
    ++ msgsOf (fun s => (check_connectivity_basic w h s).2)

/-- The command characters the driver takes from an input if it never quits:
the next unread character, after which the input up to and including the next
newline is dropped (`inLine` tells that the driver is dropping). -/
def scanCommands : Bool → List Char → List Char
  | _, [] => []
  | false, c :: rest => c :: scanCommands true rest
  | true, d :: rest => if d = '\n' then scanCommands false rest else scanCommands true rest

/-- Whether a command is `q` or `Q`. -/
def isQuit (c : Char) : Bool := c = 'q' || c = 'Q'

/-- Whether a command is `r` or `R`. -/
def isRefresh (c : Char) : Bool := c = 'r' || c = 'R'

/-- The commands processed before the first quit command or end of input. -/
def processed (input : List Char) : List Char :=
  (scanCommands false input).takeWhile (fun c => !isQuit c)

/-- Every log line of a trace carries a stamp of the clock and a message
without newline. -/
def LogsOk (w : World) (t : List Event) : Prop :=
  ∀ ts m, Event.log ts m ∈ t → (∃ k, ts = strftime (w.localtime k)) ∧ '\n' ∉ m

/-- The three effects that open an iteration of the menu loop, up to the
read of the command. -/
def menuHead (w : World) (s : St) : List Event :=
  [.log (strftime (w.localtime s.ticks)) "Menu: (r)efresh report, (q)uit".toList,
   .stdout "hwbchat> [r/q]: ".toList, .getchar s.stdin.head?]

/-- The state of `main` once both checks of the guard have passed. -/
def guardState (w : World) : St :=
  ⟨true, 2, w.stdin,
    [.fopen LOG_PATH, .log (strftime (w.localtime 0)) "Program start.".toList, .getcwd,
     .log (strftime (w.localtime 1))
       ("OK: Running from required directory: ".toList ++ REQUIRED_DIR),
     .stat LOCK_PATH]⟩

/-- The lines of a text file: the pieces between newline characters (a last
piece without newline counts when it is not empty). -/
def fileLines : List Char → List (List Char)
  | [] => []
  | c :: rest =>
    if c = '\n' then [] :: fileLines rest
    else match fileLines rest with
      | [] => [[c]]
      | l :: ls => (c :: l) :: ls

/-- Match of a line against a pattern in which `d` stands for any decimal
digit and every other character for itself; what follows the pattern is free. -/
def matchesPat : List Char → List Char → Bool
  | [], _ => true
  | _ :: _, [] => false
  | p :: ps, c :: cs => (if p = 'd' then isdigit c else c == p) && matchesPat ps cs

/-- A line of the form `[YYYY-MM-DD HH:MM:SS] <message>`. -/
def stamped (line : List Char) : Bool := matchesPat "[dddd-dd-dd dd:dd:dd] ".toList line

/-- A broken-down time as `localtime_r` fills it in, in a year with four digits. -/
def validTm (t : Tm) : Prop :=
  t.tm_year + 1900 ≤ 9999 ∧ t.tm_mon ≤ 11 ∧ t.tm_mday ≤ 31 ∧ t.tm_hour ≤ 23 ∧ t.tm_min ≤ 59
    ∧ t.tm_sec ≤ 60

/-- A host whose memory-info file is the single line `MemTotal: 16384000 kB`. -/
def memHost : Host :=
  ⟨fun p => if p = "/proc/meminfo".toList then .ok "MemTotal: 16384000 kB\n".toList else .error 2,
    .error 5, .error 13, 0⟩

/-- The test the snapshot loop applies to a directory entry name: `strtol`
consumes the whole name and yields a positive value (neither `continue` of
the loop is taken). -/
def isCandidate (name : List Char) : Prop := (strtol name).2 = [] ∧ 0 < (strtol name).1

instance (name : List Char) : Decidable (isCandidate name) := by
  unfold isCandidate
  exact inferInstance

/-- The path of the command-name descriptor of process `pid`. -/
def commPath (pid : Int) : List Char := "/proc/".toList ++ fmtD pid ++ "/comm".toList

/-- The line the process snapshot owes to one directory entry: a `PID=` line
for a candidate whose command descriptor can be opened and read, nothing for
any other entry. -/
def procLine (h : Host) (name : List Char) : Option (List Char) :=
  if isCandidate name then
    match h.fopen (commPath (strtol name).1) with
    | .ok content =>
      match fgetsLines 128 content with
      | comm :: _ => some ("  PID=".toList ++ fmtD (strtol name).1 ++ " COMM=".toList
          ++ stripEol comm)
      | [] => none
    | .error _ => none
  else none

/-- A name made of optional white space, an optional plus sign and one or
more decimal digits that denote a positive integer. -/
def positiveNumeral (name : List Char) : Prop :=
  ∃ ws sg ds, name = ws ++ sg ++ ds ∧ (∀ c ∈ ws, isspace c = true) ∧ (sg = [] ∨ sg = ['+'])
    ∧ ds ≠ [] ∧ (∀ c ∈ ds, isdigit c = true) ∧ 0 < digitsVal ds

/-- A host whose process table lists the names `+7` and `007` and on which
the command descriptor of process 7 reads `init`. -/
def signedProcHost : Host :=
  ⟨fun p => if p = "/proc/7/comm".toList then .ok "init\n".toList else .error 2,
    .error 5, .ok ["+7".toList, "007".toList], 0⟩

/-- A host with three directory entries, two of them running processes. -/
def twoProcHost : Host :=
  ⟨fun p => if p = "/proc/1/comm".toList then .ok "init\n".toList
      else if p = "/proc/22/comm".toList then .ok "sshd\n".toList else .error 2,
    .error 5, .ok ["1".toList, "self".toList, "22".toList], 0⟩

/-- A name that consists entirely of decimal digits denoting a positive integer. -/
def digitsOnlyPositive (name : List Char) : Prop :=
  name ≠ [] ∧ (∀ c ∈ name, isdigit c = true) ∧ 0 < digitsVal name

instance (name : List Char) : Decidable (digitsOnlyPositive name) := by
  unfold digitsOnlyPositive
  exact inferInstance

/-! ## Basic facts about rendering -/

theorem toDigitsCore_not_nl (fuel : Nat) : ∀ (n : Nat) (ds : List Char), '\n' ∉ ds →
    '\n' ∉ Nat.toDigitsCore 10 fuel n ds := by
  induction fuel with
  | zero => intro n ds h; simpa [Nat.toDigitsCore] using h
  | succ f ih =>
    intro n ds h
    have hd : '\n' ≠ (n % 10).digitChar := by
      have : n % 10 < 10 := Nat.mod_lt _ (by decide)
      interval_cases (n % 10) <;> decide
    simp only [Nat.toDigitsCore]
    split
    · simp [hd, h]
    · exact ih _ _ (by simp [hd, h])

theorem fmtU_not_nl (n : Nat) : '\n' ∉ fmtU n :=
  toDigitsCore_not_nl _ _ _ (by simp)

theorem fmtD_not_nl (i : Int) : '\n' ∉ fmtD i := by
  unfold fmtD
  split <;> simp [fmtU_not_nl]

/-! ## Basic facts about the logger and the trace -/

theorem logMsgs_append (a b : List Event) : logMsgs (a ++ b) = logMsgs a ++ logMsgs b := by
  simp [logMsgs, List.filterMap_append]

theorem logMsgs_log (ts m : List Char) : logMsgs [Event.log ts m] = [m] := rfl

theorem log_line_eq (w : World) (s : St) (m : List Char) (hs : s.g_log = true) :
    log_line w s m
      = ⟨true, s.ticks + 1, s.stdin, s.trace ++ [Event.log (strftime (w.localtime s.ticks)) m]⟩ := by
  cases s
  simp_all [log_line]

theorem Ext2.refl (w : World) (P : List Char → Prop) {s t : St} (hs : s.g_log = true)
    (ht : t.g_log = true) : Ext2 w P s s t t :=
  ⟨hs, ht, rfl, rfl, [], [], by simp, by simp, rfl, by simp⟩

theorem Ext2.emitStep {w : World} {P : List Char → Prop} {s s' t t' : St} (e : Event)
    (he : EvOk w P e) (h : Ext2 w P s s' t t') :
    Ext2 w P s (emit s' e) t (emit t' e) := by
  obtain ⟨h1, h2, h3, h4, ev, ev', h5, h6, h7, h8⟩ := h
  refine ⟨h1, h2, h3, h4, ev ++ [e], ev' ++ [e], ?_, ?_, ?_, ?_⟩
  · show s'.trace ++ [e] = _
    rw [h5, List.append_assoc]
  · show t'.trace ++ [e] = _
    rw [h6, List.append_assoc]
  · rw [logMsgs_append, logMsgs_append, h7]
  · intro x hx
    rcases List.mem_append.1 hx with hx | hx
    · exact h8 x hx
    · rw [List.mem_singleton.1 hx]; exact he

theorem Ext2.logStep {w : World} {P : List Char → Prop} {s s' t t' : St} (m : List Char)
    (hm : P m) (h : Ext2 w P s s' t t') :
    Ext2 w P s (log_line w s' m) t (log_line w t' m) := by
  obtain ⟨h1, h2, h3, h4, ev, ev', h5, h6, h7, h8⟩ := h
  rw [log_line_eq w s' m h1, log_line_eq w t' m h2]
  refine ⟨rfl, rfl, h3, h4, ev ++ [.log (strftime (w.localtime s'.ticks)) m],
    ev' ++ [.log (strftime (w.localtime t'.ticks)) m], ?_, ?_, ?_, ?_⟩
  · show s'.trace ++ _ = _
    rw [h5, List.append_assoc]
  · show t'.trace ++ _ = _
    rw [h6, List.append_assoc]
  · rw [logMsgs_append, logMsgs_append, h7, logMsgs_log, logMsgs_log]
  · intro x hx
    rcases List.mem_append.1 hx with hx | hx
    · exact h8 x hx
    · rw [List.mem_singleton.1 hx]; exact ⟨⟨_, rfl⟩, hm⟩

theorem Ext2.trans {w : World} {P : List Char → Prop} {s s' s'' t t' t'' : St}
    (h : Ext2 w P s s' t t') (h' : Ext2 w P s' s'' t' t'') : Ext2 w P s s'' t t'' := by
  obtain ⟨_, _, h3, h4, ev, ev', h5, h6, h7, h8⟩ := h
  obtain ⟨k1, k2, k3, k4, fv, fv', k5, k6, k7, k8⟩ := h'
  refine ⟨k1, k2, k3.trans h3, k4.trans h4, ev ++ fv, ev' ++ fv', ?_, ?_, ?_, ?_⟩
  · rw [k5, h5, List.append_assoc]
  · rw [k6, h6, List.append_assoc]
  · rw [logMsgs_append, logMsgs_append, h7, k7]
  · intro x hx
    rcases List.mem_append.1 hx with hx | hx
    · exact h8 x hx
    · exact k8 x hx

theorem EvOk.mono {w : World} {P Q : List Char → Prop} (hPQ : ∀ m, P m → Q m) {e : Event}
    (h : EvOk w P e) : EvOk w Q e := by
  cases e <;> first | exact h | exact ⟨h.1, hPQ _ h.2⟩

theorem Ext2.weaken {w : World} {P Q : List Char → Prop} (hPQ : ∀ m, P m → Q m)
    {s s' t t' : St} (h : Ext2 w P s s' t t') : Ext2 w Q s s' t t' := by
  obtain ⟨h1, h2, h3, h4, ev, ev', h5, h6, h7, h8⟩ := h
  exact ⟨h1, h2, h3, h4, ev, ev', h5, h6, h7, fun e he => (h8 e he).mono hPQ⟩

theorem mem_logMsgs {t : List Event} {m : List Char} (h : m ∈ logMsgs t) :
    ∃ ts, Event.log ts m ∈ t := by
  simp only [logMsgs, List.mem_filterMap] at h
  obtain ⟨e, he, hm⟩ := h
  cases e <;> simp at hm
  subst hm
  exact ⟨_, he⟩

/-- What one operation adds to the log, read off a paired run against a fresh state. -/
theorem frame {w : World} {P : List Char → Prop} (op : St → St)
    (hop : ∀ {s0 s t0 t : St}, Ext2 w P s0 s t0 t → Ext2 w P s0 (op s) t0 (op t))
    (s : St) (hs : s.g_log = true) :
    (op s).g_log = true ∧ (op s).stdin = s.stdin
      ∧ logMsgs (op s).trace = logMsgs s.trace ++ msgsOf op
      ∧ ∀ m ∈ msgsOf op, P m := by
  have hx : Ext2 w P St.fresh (op St.fresh) s (op s) := hop (Ext2.refl w P rfl hs)
  obtain ⟨h1, h2, h3, h4, ev, ev', h5, h6, h7, h8⟩ := hx
  have hm : msgsOf op = logMsgs ev := by
    unfold msgsOf
    rw [h5]
    simp [St.fresh, logMsgs_append, logMsgs]
  refine ⟨h2, h4, ?_, ?_⟩
  · rw [h6, logMsgs_append, hm, h7]
  · intro m hmem
    rw [hm] at hmem
    obtain ⟨ts, hts⟩ := mem_logMsgs hmem
    exact (h8 _ hts).2

/-! ## The inspectors, one by one -/

theorem log_uptime_ext2 (w : World) (h : Host) {s0 s t0 t : St} (hx : Ext2 w (InspMsg w) s0 s t0 t) :
    Ext2 w (InspMsg w) s0 (log_uptime w h s) t0 (log_uptime w h t) := by
  unfold log_uptime
  cases hf : h.fopen "/proc/uptime".toList with
  | error e =>
    refine Ext2.logStep _ ⟨fun hs => ?_, by simp⟩ (Ext2.emitStep _ trivial hx)
    simp [hs.strerror]
  | ok content =>
    dsimp only
    cases hu : w.scan_uptime content with
    | none =>
      refine Ext2.logStep _ ⟨fun _ => ?_, by simp⟩ (Ext2.emitStep _ ?_ hx)
      · decide
      · exact trivial
    | some p =>
      obtain ⟨a, b⟩ := p
      dsimp only
      refine Ext2.logStep _ ⟨fun hs => ?_, by simp⟩ (Ext2.emitStep _ ?_ hx)
      · simp [(hs.uptime _ _ _ hu).1, (hs.uptime _ _ _ hu).2]
      · exact trivial

theorem log_disk_space_root_ext2 (w : World) (h : Host) {s0 s t0 t : St}
    (hx : Ext2 w (InspMsg w) s0 s t0 t) :
    Ext2 w (InspMsg w) s0 (log_disk_space_root w h s) t0 (log_disk_space_root w h t) := by
  unfold log_disk_space_root
  cases hf : h.statvfs with
  | error e =>
    refine Ext2.logStep _ ⟨fun hs => ?_, by simp⟩ (Ext2.emitStep _ trivial hx)
    simp [hs.strerror]
  | ok vfs =>
    refine Ext2.logStep _ ⟨fun _ => ?_, by simp⟩ (Ext2.emitStep _ trivial hx)
    simp [fmtU_not_nl]

theorem log_meminfo_ext2 (w : World) (h : Host) {s0 s t0 t : St} (hx : Ext2 w (InspMsg w) s0 s t0 t) :
    Ext2 w (InspMsg w) s0 (log_meminfo w h s) t0 (log_meminfo w h t) := by
  unfold log_meminfo
  cases hf : h.fopen "/proc/meminfo".toList with
  | error e =>
    refine Ext2.logStep _ ⟨fun hs => ?_, by simp⟩ (Ext2.emitStep _ trivial hx)
    simp [hs.strerror]
  | ok content =>
    refine Ext2.logStep _ ⟨fun _ => ?_, by simp⟩ (Ext2.logStep _ ⟨fun _ => ?_, by simp⟩ (Ext2.emitStep _ trivial hx))
    · simp [fmtU_not_nl]
    · simp [fmtU_not_nl]

theorem stripEol_not_nl (buf : List Char) : '\n' ∉ stripEol buf := by
  intro h
  have := List.mem_takeWhile_imp h
  simp at this

theorem log_os_and_cpu_ext2 (w : World) (h : Host) {s0 s t0 t : St} (hx : Ext2 w (InspMsg w) s0 s t0 t) :
    Ext2 w (InspMsg w) s0 (log_os_and_cpu w h s) t0 (log_os_and_cpu w h t) := by
  unfold log_os_and_cpu
  have h1 : Ext2 w (InspMsg w) s0
      (match h.fopen "/etc/os-release".toList with
        | .ok content =>
          match (fgetsLines 256 content).find? (startsWith "PRETTY_NAME=".toList) with
          | some line => log_line w (emit s (.fopen "/etc/os-release".toList))
              ("OS: ".toList ++ (stripEol line).drop 12)
          | none => emit s (.fopen "/etc/os-release".toList)
        | .error e => log_line w (emit s (.fopen "/etc/os-release".toList))
            ("WARN: unable to read /etc/os-release: ".toList ++ w.strerror e))
      t0
      (match h.fopen "/etc/os-release".toList with
        | .ok content =>
          match (fgetsLines 256 content).find? (startsWith "PRETTY_NAME=".toList) with
          | some line => log_line w (emit t (.fopen "/etc/os-release".toList))
              ("OS: ".toList ++ (stripEol line).drop 12)
          | none => emit t (.fopen "/etc/os-release".toList)
        | .error e => log_line w (emit t (.fopen "/etc/os-release".toList))
            ("WARN: unable to read /etc/os-release: ".toList ++ w.strerror e)) := by
    cases hf : h.fopen "/etc/os-release".toList with
    | error e =>
      refine Ext2.logStep _ ⟨fun hs => ?_, by simp⟩ (Ext2.emitStep _ ?_ hx)
      · simp [hs.strerror]
      · exact trivial
    | ok content =>
      dsimp only
      cases hl : (fgetsLines 256 content).find? (startsWith "PRETTY_NAME=".toList) with
      | none => exact Ext2.emitStep _ trivial hx
      | some line =>
        refine Ext2.logStep _ ⟨fun _ => ?_, by simp⟩ (Ext2.emitStep _ ?_ hx)
        · have := stripEol_not_nl line
          simp only [List.mem_append, not_or]
          exact ⟨by decide, fun hm => this (List.mem_of_mem_drop hm)⟩
        · exact trivial
  have h2 := Ext2.emitStep (.fopen "/proc/cpuinfo".toList) trivial h1
  dsimp only
  cases hf : h.fopen "/proc/cpuinfo".toList with
  | error e => exact h2
  | ok content =>
    dsimp only
    cases hl : (fgetsLines 256 content).find?
        (fun line => startsWith "model name".toList line || startsWith "Hardware".toList line) with
    | none => exact h2
    | some line =>
      refine Ext2.logStep _ ⟨fun _ => ?_, by simp⟩ h2
      have := stripEol_not_nl line
      simp only [List.mem_append, not_or]
      exact ⟨by decide, this⟩

theorem snapshot_loop_ext2 (w : World) (h : Host) (max_entries : Int) (names : List (List Char)) :
    ∀ (count : Int) {s0 s t0 t : St}, Ext2 w (InspMsg w) s0 s t0 t →
      Ext2 w (InspMsg w) s0 (snapshot_loop w h max_entries names count s).2 t0
        (snapshot_loop w h max_entries names count t).2
      ∧ (snapshot_loop w h max_entries names count s).1
        = (snapshot_loop w h max_entries names count t).1 := by
  induction names with
  | nil => intro count s0 s t0 t hx; exact ⟨hx, rfl⟩
  | cons name rest ih =>
    intro count s0 s t0 t hx
    simp only [snapshot_loop]
    by_cases hc : count < max_entries
    · simp only [if_pos hc]
      by_cases he : (strtol name).2 ≠ []
      · simp only [if_pos he]
        exact ih count hx
      · simp only [if_neg he]
        by_cases hp : (strtol name).1 ≤ 0
        · simp only [if_pos hp]
          exact ih count hx
        · simp only [if_neg hp]
          have h1 := Ext2.emitStep
            (.fopen ("/proc/".toList ++ fmtD (strtol name).1 ++ "/comm".toList)) trivial hx
          cases hf : h.fopen ("/proc/".toList ++ fmtD (strtol name).1 ++ "/comm".toList) with
          | error e => exact ih count h1
          | ok content =>
            dsimp only
            cases hl : fgetsLines 128 content with
            | nil => exact ih count h1
            | cons comm more =>
              refine ih (count + 1) (Ext2.logStep _ ⟨fun _ => ?_, by simp⟩ h1)
              have := stripEol_not_nl comm
              simp only [List.mem_append, not_or]
              exact ⟨⟨⟨by decide, fmtD_not_nl _⟩, by decide⟩, this⟩
    · simp only [if_neg hc]
      exact ⟨hx, trivial⟩

theorem log_process_snapshot_limited_ext2 (w : World) (h : Host) (max_entries : Int)
    {s0 s t0 t : St} (hx : Ext2 w (InspMsg w) s0 s t0 t) :
    Ext2 w (InspMsg w) s0 (log_process_snapshot_limited w h max_entries s) t0
      (log_process_snapshot_limited w h max_entries t) := by
  unfold log_process_snapshot_limited
  have h1 := Ext2.emitStep (.opendir "/proc".toList) trivial hx
  cases hf : h.readdir with
  | error e =>
    refine Ext2.logStep _ ⟨fun hs => ?_, by simp⟩ h1
    simp [hs.strerror]
  | ok names =>
    dsimp only
    have h2 : Ext2 w (InspMsg w) s0 (log_line w (emit s (.opendir "/proc".toList))
        ("Processes (snapshot, first ".toList ++ fmtD max_entries ++ "):".toList)) t0
        (log_line w (emit t (.opendir "/proc".toList))
        ("Processes (snapshot, first ".toList ++ fmtD max_entries ++ "):".toList)) := by
      refine Ext2.logStep _ ⟨fun _ => ?_, by simp⟩ h1
      simp only [List.mem_append, not_or]
      exact ⟨⟨by decide, fmtD_not_nl _⟩, by decide⟩
    obtain ⟨h3, h4⟩ := snapshot_loop_ext2 w h max_entries names 0 h2
    rw [h4]
    split
    · exact Ext2.logStep _ ⟨fun _ => by decide, by decide⟩ h3
    · exact h3

theorem log_network_connections_hint_ext2 (w : World) {s0 s t0 t : St}
    (hx : Ext2 w (InspMsg w) s0 s t0 t) :
    Ext2 w (InspMsg w) s0 (log_network_connections_hint w s) t0 (log_network_connections_hint w t) :=
  Ext2.logStep _ ⟨fun _ => by decide, by decide⟩ hx

theorem check_connectivity_basic_ext2 (w : World) (h : Host) {s0 s t0 t : St}
    (hx : Ext2 w (InspMsg w) s0 s t0 t) :
    Ext2 w (InspMsg w) s0 (check_connectivity_basic w h s).2 t0 (check_connectivity_basic w h t).2 := by
  unfold check_connectivity_basic
  have h1 := Ext2.emitStep (.system "ping -c 1 -W 2 8.8.8.8 >/dev/null 2>&1".toList) trivial hx
  by_cases hp : h.ping = 0
  · simp only [hp, if_true]
    exact Ext2.logStep _ ⟨fun _ => by decide, by decide⟩ h1
  · simp only [hp, if_false]
    refine Ext2.logStep _ ⟨fun _ => ?_, by simp⟩ h1
    simp only [List.mem_append, not_or]
    exact ⟨⟨by decide, fmtD_not_nl _⟩, by decide⟩

theorem write_report_once_ext (w : World) {s : St} (hs : s.g_log = true) :
    Ext2 w (MsgOk w) s (write_report_once w s) s (write_report_once w s) := by
  unfold write_report_once
  have h0 : Ext2 w (InspMsg w) (log_line w s BEGIN_REPORT) (log_line w s BEGIN_REPORT)
      (log_line w s BEGIN_REPORT) (log_line w s BEGIN_REPORT) :=
    Ext2.refl w _ (by rw [log_line_eq w s _ hs]) (by rw [log_line_eq w s _ hs])
  have h1 := (check_connectivity_basic_ext2 w (w.host s.ticks)
      (log_network_connections_hint_ext2 w
        (log_process_snapshot_limited_ext2 w (w.host s.ticks) 20
          (log_meminfo_ext2 w (w.host s.ticks)
            (log_disk_space_root_ext2 w (w.host s.ticks)
              (log_uptime_ext2 w (w.host s.ticks)
                (log_os_and_cpu_ext2 w (w.host s.ticks) h0))))))).weaken (fun m hm => hm.1)
  have h2 : Ext2 w (MsgOk w) s (log_line w s BEGIN_REPORT) s (log_line w s BEGIN_REPORT) :=
    Ext2.logStep _ (fun _ => by decide) (Ext2.refl w _ hs hs)
  have h3 := Ext2.logStep END_REPORT (fun _ => by decide) (Ext2.trans h2 h1)
  exact h3

/-! ## The report -/

theorem Ext2.msgs_ne_nil {w : World} {P : List Char → Prop} {s s' t t' : St}
    (h : Ext2 w P s s' t t') (hne : logMsgs s.trace ≠ []) : logMsgs s'.trace ≠ [] := by
  obtain ⟨_, _, _, _, ev, ev', h5, _, _, _⟩ := h
  rw [h5, logMsgs_append]
  simp [hne]

theorem msgsOf_uptime_ne (w : World) (h : Host) : msgsOf (log_uptime w h) ≠ [] := by
  unfold msgsOf log_uptime
  cases h.fopen "/proc/uptime".toList with
  | error e => simp [log_line, emit, St.fresh, logMsgs]
  | ok content =>
    dsimp only
    cases w.scan_uptime content with
    | none => simp [log_line, emit, St.fresh, logMsgs]
    | some p => simp [log_line, emit, St.fresh, logMsgs]

theorem msgsOf_disk_ne (w : World) (h : Host) : msgsOf (log_disk_space_root w h) ≠ [] := by
  unfold msgsOf log_disk_space_root
  cases h.statvfs <;> simp [log_line, emit, St.fresh, logMsgs]

theorem msgsOf_meminfo_ne (w : World) (h : Host) : msgsOf (log_meminfo w h) ≠ [] := by
  unfold msgsOf log_meminfo
  cases h.fopen "/proc/meminfo".toList <;> simp [log_line, emit, St.fresh, logMsgs]

theorem msgsOf_snapshot_ne (w : World) (h : Host) (n : Int) :
    msgsOf (log_process_snapshot_limited w h n) ≠ [] := by
  unfold msgsOf log_process_snapshot_limited
  cases h.readdir with
  | error e => simp [log_line, emit, St.fresh, logMsgs]
  | ok names =>
    dsimp only
    have h0 : (log_line w (emit St.fresh (.opendir "/proc".toList))
        ("Processes (snapshot, first ".toList ++ fmtD n ++ "):".toList)).g_log = true := by
      simp [log_line, emit, St.fresh]
    have h1 := (snapshot_loop_ext2 w h n names 0 (Ext2.refl w (InspMsg w) h0 h0)).1
    have h2 := h1.msgs_ne_nil (by simp [log_line, emit, St.fresh, logMsgs])
    split
    · rw [log_line_eq _ _ _ h1.1, logMsgs_append, logMsgs_log]
      intro h
      have := congrArg List.length h
      simp at this
    · exact h2

theorem msgsOf_hint (w : World) : msgsOf (log_network_connections_hint w)
    = [("Network: see /proc/net/tcp /proc/net/udp /proc/net/tcp6 /proc/net/udp6 ".toList
        ++ "for connections (not fully parsed here).".toList)] := by
  simp [msgsOf, log_network_connections_hint, log_line, St.fresh, logMsgs]

theorem msgsOf_connectivity_ne (w : World) (h : Host) :
    msgsOf (fun s => (check_connectivity_basic w h s).2) ≠ [] := by
  unfold msgsOf check_connectivity_basic
  by_cases hp : h.ping = 0 <;> simp [hp, log_line, emit, St.fresh, logMsgs]

/-- The messages of one report: the two markers around `reportBody`, none of
whose messages starts with a dash. -/
theorem write_report_once_msgs (w : World) (s : St) (hs : s.g_log = true) :
    (write_report_once w s).g_log = true ∧ (write_report_once w s).stdin = s.stdin
    ∧ logMsgs (write_report_once w s).trace
        = logMsgs s.trace ++ BEGIN_REPORT :: reportBody w (w.host s.ticks) ++ [END_REPORT]
    ∧ ∀ m ∈ reportBody w (w.host s.ticks), InspMsg w m := by
  have hb : (log_line w s BEGIN_REPORT).g_log = true := by rw [log_line_eq w s _ hs]
  have hbs : (log_line w s BEGIN_REPORT).stdin = s.stdin := by rw [log_line_eq w s _ hs]
  have hbm : logMsgs (log_line w s BEGIN_REPORT).trace = logMsgs s.trace ++ [BEGIN_REPORT] := by
    rw [log_line_eq w s _ hs, logMsgs_append, logMsgs_log]
  obtain ⟨a1, a2, a3, a4⟩ := frame (log_os_and_cpu w (w.host s.ticks))
    (log_os_and_cpu_ext2 w _) _ hb
  obtain ⟨b1, b2, b3, b4⟩ := frame (log_uptime w (w.host s.ticks)) (log_uptime_ext2 w _) _ a1
  obtain ⟨c1, c2, c3, c4⟩ := frame (log_disk_space_root w (w.host s.ticks))
    (log_disk_space_root_ext2 w _) _ b1
  obtain ⟨d1, d2, d3, d4⟩ := frame (log_meminfo w (w.host s.ticks)) (log_meminfo_ext2 w _) _ c1
  obtain ⟨e1, e2, e3, e4⟩ := frame (log_process_snapshot_limited w (w.host s.ticks) 20)
    (log_process_snapshot_limited_ext2 w _ 20) _ d1
  obtain ⟨f1, f2, f3, f4⟩ := frame (log_network_connections_hint w)
    (log_network_connections_hint_ext2 w) _ e1
  obtain ⟨g1, g2, g3, g4⟩ := frame (fun x => (check_connectivity_basic w (w.host s.ticks) x).2)
    (check_connectivity_basic_ext2 w _) _ f1
  have hz : write_report_once w s = log_line w (check_connectivity_basic w (w.host s.ticks)
      (log_network_connections_hint w (log_process_snapshot_limited w (w.host s.ticks) 20
        (log_meminfo w (w.host s.ticks) (log_disk_space_root w (w.host s.ticks)
          (log_uptime w (w.host s.ticks) (log_os_and_cpu w (w.host s.ticks)
            (log_line w s BEGIN_REPORT)))))))).2 END_REPORT := rfl
  refine ⟨?_, ?_, ?_, ?_⟩
  · rw [hz, log_line_eq _ _ _ g1]
  · rw [hz, log_line_eq _ _ _ g1]
    exact g2.trans (f2.trans (e2.trans (d2.trans (c2.trans (b2.trans (a2.trans hbs))))))
  · rw [hz, log_line_eq _ _ _ g1]
    show logMsgs (_ ++ _) = _
    rw [logMsgs_append, logMsgs_log, g3, f3, e3, d3, c3, b3, a3, hbm]
    simp [reportBody]
  · intro m hm
    simp only [reportBody, List.mem_append] at hm
    rcases hm with ((((((hm | hm) | hm) | hm) | hm) | hm) | hm)
    · exact a4 m hm
    · exact b4 m hm
    · exact c4 m hm
    · exact d4 m hm
    · exact e4 m hm
    · exact f4 m hm
    · exact g4 m hm


/-- Claim C7: whatever the host, one call of `write_report_once` appends the
message `---- BEGIN REPORT ----`, then what the inspectors log in the order
OS/CPU, uptime, disk, memory, process snapshot (limit 20), network hint,
connectivity probe, then `---- END REPORT ----`; each marker occurs exactly
once, and every inspector from the uptime reader on logs at least one line
whatever happened before it. -/
theorem report_markers_and_order (w : World) (s : St) (hs : s.g_log = true) :
    logMsgs (write_report_once w s).trace
        = logMsgs s.trace ++ BEGIN_REPORT :: reportBody w (w.host s.ticks) ++ [END_REPORT]
    ∧ (BEGIN_REPORT :: reportBody w (w.host s.ticks) ++ [END_REPORT]).count BEGIN_REPORT = 1
    ∧ (BEGIN_REPORT :: reportBody w (w.host s.ticks) ++ [END_REPORT]).count END_REPORT = 1
    ∧ msgsOf (log_uptime w (w.host s.ticks)) ≠ []
    ∧ msgsOf (log_disk_space_root w (w.host s.ticks)) ≠ []
    ∧ msgsOf (log_meminfo w (w.host s.ticks)) ≠ []
    ∧ msgsOf (log_process_snapshot_limited w (w.host s.ticks) 20) ≠ []
    ∧ msgsOf (log_network_connections_hint w) ≠ []
    ∧ msgsOf (fun s' => (check_connectivity_basic w (w.host s.ticks) s').2) ≠ [] := by
  obtain ⟨_, _, h3, h4⟩ := write_report_once_msgs w s hs
  have hB : BEGIN_REPORT ∉ reportBody w (w.host s.ticks) := fun hm => (h4 _ hm).2 (by decide)
  have hE : END_REPORT ∉ reportBody w (w.host s.ticks) := fun hm => (h4 _ hm).2 (by decide)
  refine ⟨h3, ?_, ?_, msgsOf_uptime_ne _ _, msgsOf_disk_ne _ _, msgsOf_meminfo_ne _ _,
    msgsOf_snapshot_ne _ _ _, ?_, msgsOf_connectivity_ne _ _⟩
  · rw [List.count_append, List.count_cons_self, List.count_eq_zero_of_not_mem hB]
    decide
  · rw [List.count_append, List.count_cons_of_ne (by decide),
      List.count_eq_zero_of_not_mem hE]
    decide
  · rw [msgsOf_hint]; simp

theorem report_markers_and_order_witness :
    logMsgs (write_report_once (demoWorld REQUIRED_DIR false []) St.fresh).trace
      = [BEGIN_REPORT,
         "WARN: unable to read /etc/os-release: E2".toList,
         "ERROR: fopen /proc/uptime: E2".toList,
         "ERROR: statvfs(\x27/\x27): E5".toList,
         "ERROR: fopen /proc/meminfo: E2".toList,
         "ERROR: opendir /proc: E13".toList,
         ("Network: see /proc/net/tcp /proc/net/udp /proc/net/tcp6 /proc/net/udp6 ".toList
           ++ "for connections (not fully parsed here).".toList),
         "Connectivity: ping to 8.8.8.8 FAILED (rc=512)".toList,
         END_REPORT] :=
  (report_markers_and_order (demoWorld REQUIRED_DIR false []) St.fresh rfl).1.trans (by decide)

/-! ## The driver -/

theorem consume_rest_length (l : List Char) : (consume_rest l).2.length ≤ l.length := by
  induction l with
  | nil => simp [consume_rest]
  | cons d rest ih =>
    simp only [consume_rest]
    split
    · simp
    · simp only [List.length_cons]; omega

theorem scanCommands_consume (l : List Char) :
    scanCommands true l = scanCommands false (consume_rest l).2 := by
  induction l with
  | nil => simp [consume_rest, scanCommands]
  | cons d rest ih =>
    simp only [consume_rest, scanCommands]
    split
    · rfl
    · exact ih

theorem reportCount_append (a b : List Event) :
    reportCount (a ++ b) = reportCount a + reportCount b := by
  simp [reportCount, logMsgs_append, List.count_append]

theorem reportCount_report (w : World) (s : St) (hs : s.g_log = true) :
    reportCount (write_report_once w s).trace = reportCount s.trace + 1 := by
  obtain ⟨_, _, h3, h4⟩ := write_report_once_msgs w s hs
  have hB : BEGIN_REPORT ∉ reportBody w (w.host s.ticks) := fun hm => (h4 _ hm).2 (by decide)
  unfold reportCount
  rw [h3, List.count_append, List.count_append, List.count_cons_self,
    List.count_eq_zero_of_not_mem hB]
  have : List.count BEGIN_REPORT [END_REPORT] = 0 := by decide
  omega

theorem reportCount_log_ne (ts : List Char) {m : List Char} (h : m ≠ BEGIN_REPORT) :
    reportCount [.log ts m] = 0 := by
  unfold reportCount
  rw [logMsgs_log]
  exact List.count_eq_zero_of_not_mem (by simpa using Ne.symm h)

theorem LogsOk.append {w : World} {a b : List Event} (ha : LogsOk w a) (hb : LogsOk w b) :
    LogsOk w (a ++ b) := by
  intro ts m hm
  rcases List.mem_append.1 hm with h | h
  · exact ha ts m h
  · exact hb ts m h

theorem LogsOk.report (w : World) (s : St) (hs : s.g_log = true) (hw : Sane w)
    (hl : LogsOk w s.trace) : LogsOk w (write_report_once w s).trace := by
  obtain ⟨_, _, _, _, ev, _, h5, _, _, h8⟩ := write_report_once_ext w hs
  rw [h5]
  refine hl.append ?_
  intro ts m hm
  have := h8 _ hm
  exact ⟨this.1, this.2 hw⟩

theorem LogsOk.log {w : World} {t : List Event} (hl : LogsOk w t) (k : Nat) {m : List Char}
    (hm : '\n' ∉ m) : LogsOk w (t ++ [.log (strftime (w.localtime k)) m]) := by
  refine hl.append ?_
  intro ts m' h
  rw [List.mem_singleton] at h
  cases h
  exact ⟨⟨k, rfl⟩, hm⟩

theorem LogsOk.quiet {w : World} {ev : List Event} (h : ∀ e ∈ ev, ∀ ts m, e ≠ .log ts m) :
    LogsOk w ev :=
  fun ts m hm => absurd rfl (h _ hm ts m)

theorem consume_rest_events (l : List Char) :
    ∀ e ∈ (consume_rest l).1, ∀ ts m, e ≠ .log ts m := by
  induction l with
  | nil => simp [consume_rest]
  | cons d rest ih =>
    simp only [consume_rest]
    split
    · simp
    · intro e he
      rcases List.mem_cons.1 he with h | h
      · subst h; simp
      · exact ih e h

theorem processed_cons (c : Char) (rest : List Char) :
    processed (c :: rest) = if isQuit c then [] else c :: processed (consume_rest rest).2 := by
  simp only [processed, scanCommands, List.takeWhile_cons, scanCommands_consume]
  cases isQuit c <;> simp

theorem menu_loop_cons (w : World) (fuel k : Nat) (c : Char) (rest : List Char)
    (tr : List Event) :
    menu_loop w (fuel + 1) ⟨true, k, c :: rest, tr⟩ =
      if c = 'q' ∨ c = 'Q' then
        some (log_line w ⟨true, k + 1, (consume_rest rest).2,
          tr ++ menuHead w ⟨true, k, c :: rest, tr⟩ ++ (consume_rest rest).1⟩
          "User requested quit.".toList)
      else if c = 'r' ∨ c = 'R' then
        menu_loop w fuel (write_report_once w (log_line w ⟨true, k + 1, (consume_rest rest).2,
          tr ++ menuHead w ⟨true, k, c :: rest, tr⟩ ++ (consume_rest rest).1⟩
          "User requested refresh report.".toList))
      else
        menu_loop w fuel (log_line w ⟨true, k + 1, (consume_rest rest).2,
          tr ++ menuHead w ⟨true, k, c :: rest, tr⟩ ++ (consume_rest rest).1⟩
          ("Unknown command: ".toList ++ [c])) := by
  have hs : (⟨true, k + 1, (consume_rest rest).2,
      tr ++ menuHead w ⟨true, k, c :: rest, tr⟩ ++ (consume_rest rest).1⟩ : St)
      = consume_rest_of_line (getchar (emit (log_line w ⟨true, k, c :: rest, tr⟩
          "Menu: (r)efresh report, (q)uit".toList) (.stdout "hwbchat> [r/q]: ".toList))).2 := by
    simp [consume_rest_of_line, getchar, emit, log_line, menuHead]
  rw [hs]
  simp only [menu_loop, log_line, emit, getchar]
  rfl

theorem menuHead_logsOk (w : World) (s : St) : LogsOk w (menuHead w s) := by
  intro ts m h
  simp only [menuHead, List.mem_cons, List.mem_singleton, List.not_mem_nil, or_false] at h
  rcases h with h | h | h
  · cases h; exact ⟨⟨_, rfl⟩, by decide⟩
  · cases h
  · cases h

theorem menu_loop_spec (w : World) : ∀ (fuel : Nat) (s : St), s.g_log = true →
    s.stdin.length < fuel →
    ∃ s', menu_loop w fuel s = some s' ∧ s'.g_log = true
      ∧ reportCount s'.trace = reportCount s.trace + (processed s.stdin).countP isRefresh
      ∧ (∃ ev, s'.trace = s.trace ++ menuHead w s ++ ev)
      ∧ (Sane w → '\n' ∉ processed s.stdin → LogsOk w s.trace → LogsOk w s'.trace) := by
  intro fuel
  induction fuel with
  | zero => intro s _ h; omega
  | succ fuel ih =>
    intro s hs hlen
    obtain ⟨g, k, inp, tr⟩ := s
    simp only at hs hlen
    subst hs
    have hmc : reportCount (menuHead w ⟨true, k, inp, tr⟩) = 0 := by
      simp [menuHead, reportCount, logMsgs, BEGIN_REPORT]
    cases inp with
    | nil =>
      refine ⟨⟨true, k + 1, [], tr ++ menuHead w ⟨true, k, [], tr⟩⟩,
        by simp [menu_loop, log_line, emit, getchar, menuHead], rfl, ?_, ?_, ?_⟩
      · simp [processed, scanCommands, reportCount_append, hmc]
      · exact ⟨[], by simp⟩
      · intro _ _ hl
        exact hl.append (menuHead_logsOk w _)
    | cons c rest =>
      have hrl := consume_rest_length rest
      simp only [List.length_cons] at hlen
      rw [menu_loop_cons, processed_cons]
      have hq0 : reportCount (consume_rest rest).1 = 0 := by
        have := consume_rest_events rest
        unfold reportCount
        apply List.count_eq_zero_of_not_mem
        intro hm
        obtain ⟨ts, hts⟩ := mem_logMsgs hm
        exact this _ hts _ _ rfl
      have hbase : ∀ (hl : LogsOk w tr), LogsOk w
          (tr ++ menuHead w ⟨true, k, c :: rest, tr⟩ ++ (consume_rest rest).1) :=
        fun hl => (hl.append (menuHead_logsOk w _)).append
          (LogsOk.quiet (consume_rest_events rest))
      by_cases hq : c = 'q' ∨ c = 'Q'
      · have hq' : isQuit c = true := by simpa [isQuit] using hq
        rw [if_pos hq, log_line_eq _ _ _ rfl]
        refine ⟨_, rfl, rfl, ?_, ⟨_, by simp [List.append_assoc]; rfl⟩, ?_⟩
        · simp only [reportCount_append, hmc, hq0, hq', if_true, List.countP_nil]
          rw [reportCount_log_ne _ (by decide)]
        · intro _ _ hl
          exact (hbase hl).log _ (by decide)
      · have hq' : isQuit c = false := by simpa [isQuit] using hq
        rw [if_neg hq]
        simp only [hq', Bool.false_eq_true, if_false]
        by_cases hr : c = 'r' ∨ c = 'R'
        · have hr' : isRefresh c = true := by simpa [isRefresh] using hr
          rw [if_pos hr, log_line_eq _ _ _ rfl]
          obtain ⟨r1, r2, r3, r4⟩ := write_report_once_msgs w ⟨true, k + 1 + 1,
            (consume_rest rest).2,
            tr ++ menuHead w ⟨true, k, c :: rest, tr⟩ ++ (consume_rest rest).1 ++
              [.log (strftime (w.localtime (k + 1))) "User requested refresh report.".toList]⟩ rfl
          have r5 := reportCount_report w ⟨true, k + 1 + 1, (consume_rest rest).2,
            tr ++ menuHead w ⟨true, k, c :: rest, tr⟩ ++ (consume_rest rest).1 ++
              [.log (strftime (w.localtime (k + 1))) "User requested refresh report.".toList]⟩ rfl
          obtain ⟨_, _, _, _, rv, _, r6, _, _, _⟩ := write_report_once_ext w
            (s := ⟨true, k + 1 + 1, (consume_rest rest).2,
            tr ++ menuHead w ⟨true, k, c :: rest, tr⟩ ++ (consume_rest rest).1 ++
              [.log (strftime (w.localtime (k + 1))) "User requested refresh report.".toList]⟩) rfl
          obtain ⟨s', h1, h2, h3, ⟨ev, h4⟩, h5⟩ := ih _ r1 (by rw [r2]; simp only; omega)
          refine ⟨s', h1, h2, ?_, ⟨_, by rw [h4, r6]; simp [List.append_assoc]; rfl⟩, ?_⟩
          · rw [h3, r5, r2]
            simp only [reportCount_append, hmc, hq0, List.countP_cons, hr']
            rw [reportCount_log_ne _ (by decide)]
            simp
            omega
          · intro hw hn hl
            simp only [List.mem_cons, not_or] at hn
            rw [r2] at h5
            exact h5 hw hn.2 (LogsOk.report w _ rfl hw ((hbase hl).log _ (by decide)))
        · have hr' : isRefresh c = false := by simpa [isRefresh] using hr
          rw [if_neg hr, log_line_eq _ _ _ rfl]
          obtain ⟨s', h1, h2, h3, ⟨ev, h4⟩, h5⟩ := ih ⟨true, k + 1 + 1, (consume_rest rest).2,
            tr ++ menuHead w ⟨true, k, c :: rest, tr⟩ ++ (consume_rest rest).1 ++
              [.log (strftime (w.localtime (k + 1))) ("Unknown command: ".toList ++ [c])]⟩
            rfl (by simp only; omega)
          refine ⟨s', h1, h2, ?_, ⟨_, by rw [h4]; simp [List.append_assoc]; rfl⟩, ?_⟩
          · rw [h3]
            simp only [reportCount_append, hmc, hq0, List.countP_cons, hr']
            rw [reportCount_log_ne _ (by simp [BEGIN_REPORT])]
            simp
          · intro hw hn hl
            simp only [List.mem_cons, not_or] at hn
            refine h5 hw hn.2 ((hbase hl).log _ ?_)
            simp only [List.mem_append, List.mem_singleton, not_or]
            exact ⟨by decide, hn.1⟩

/-! ## The whole program -/

theorem main_guard_pass (w : World) (hopen : w.log_errno = none)
    (hcwd : w.getcwd = .ok REQUIRED_DIR) (hlock : w.stat LOCK_PATH = false) (fuel : Nat) :
    main_fuel w fuel = match menu_loop w fuel (write_report_once w (guardState w)) with
      | none => none
      | some s => some (0, log_line w s "Program exit.".toList) := by
  simp [main_fuel, hopen, hcwd, hlock, ensure_running_from_required_dir, file_exists, log_line,
    emit, St.init, guardState]

theorem main_locked (w : World) (hopen : w.log_errno = none)
    (hcwd : w.getcwd = .ok REQUIRED_DIR) (hlock : w.stat LOCK_PATH = true) (fuel : Nat) :
    main_fuel w fuel = some (1, log_line w (guardState w)
      ("Lock file exists (".toList ++ LOCK_PATH ++ "). Exiting.".toList)) := by
  simp [main_fuel, hopen, hcwd, hlock, ensure_running_from_required_dir, file_exists, log_line,
    emit, St.init, guardState]

theorem reportCount_guard (w : World) : reportCount (guardState w).trace = 0 := by
  simp [guardState, reportCount, logMsgs, BEGIN_REPORT, REQUIRED_DIR]

/-- A guarded run: the final state, its report count and the shape of its trace. -/
theorem main_pass_spec (w : World) (hopen : w.log_errno = none)
    (hcwd : w.getcwd = .ok REQUIRED_DIR) (hlock : w.stat LOCK_PATH = false) :
    ∃ s' ev, main w = some (0, log_line w s' "Program exit.".toList) ∧ s'.g_log = true
      ∧ reportCount (log_line w s' "Program exit.".toList).trace
          = 1 + (processed w.stdin).countP isRefresh
      ∧ s'.trace = (write_report_once w (guardState w)).trace
          ++ menuHead w (write_report_once w (guardState w)) ++ ev
      ∧ (Sane w → '\n' ∉ processed w.stdin → LogsOk w (log_line w s' "Program exit.".toList).trace)
      := by
  obtain ⟨r1, r2, _, _⟩ := write_report_once_msgs w (guardState w) rfl
  have r5 := reportCount_report w (guardState w) rfl
  have r2' : (write_report_once w (guardState w)).stdin = w.stdin := r2
  obtain ⟨s', h1, h2, h3, ⟨ev, h4⟩, h5⟩ := menu_loop_spec w (w.stdin.length + 1)
    (write_report_once w (guardState w)) r1 (by rw [r2']; omega)
  refine ⟨s', ev, ?_, h2, ?_, h4, ?_⟩
  · rw [main, main_guard_pass w hopen hcwd hlock, h1]
  · rw [log_line_eq _ _ _ h2]
    show reportCount (_ ++ _) = _
    rw [reportCount_append, reportCount_log_ne _ (by decide), h3, r5, reportCount_guard, r2']
    omega
  · intro hw hn
    rw [log_line_eq _ _ _ h2]
    refine LogsOk.log (h5 hw (by rw [r2']; exact hn) (LogsOk.report w _ rfl hw ?_)) _ (by decide)
    intro ts m hm
    simp only [guardState, List.mem_cons, List.mem_singleton, List.not_mem_nil, or_false] at hm
    rcases hm with h | h | h | h | h
    · cases h
    · cases h; exact ⟨⟨_, rfl⟩, by decide⟩
    · cases h
    · cases h; exact ⟨⟨_, rfl⟩, by decide⟩
    · cases h

/-- The run of `main` up to the directory check, when that check fails. -/
theorem main_dir_fail (w : World) (hopen : w.log_errno = none)
    (hcwd : w.getcwd ≠ .ok REQUIRED_DIR) (fuel : Nat) :
    main_fuel w fuel = some (1, ⟨true, 3, w.stdin,
      [.fopen LOG_PATH, .log (strftime (w.localtime 0)) "Program start.".toList, .getcwd,
       .log (strftime (w.localtime 1)) (dirFailure w),
       .log (strftime (w.localtime 2))
         "Exiting because CWD is not required directory.".toList]⟩) := by
  cases hg : w.getcwd with
  | error e =>
    simp [main_fuel, hopen, hg, ensure_running_from_required_dir, log_line, emit, St.init,
      dirFailure]
  | ok cwd =>
    have hne : cwd ≠ REQUIRED_DIR := fun h => hcwd (by rw [hg, h])
    simp [main_fuel, hopen, hg, hne, ensure_running_from_required_dir, log_line, emit,
      St.init, dirFailure]

/-- Claim C1: when the working directory is not exactly the required path, or
cannot be obtained, `main` logs the failure line, returns 1, never calls
`stat` on the lock file, writes no report and reads no input. -/
theorem main_wrong_directory (w : World) (hopen : w.log_errno = none)
    (hcwd : w.getcwd ≠ .ok REQUIRED_DIR) :
    ∃ s, main w = some (1, s)
      ∧ logMsgs s.trace = ["Program start.".toList, dirFailure w,
          "Exiting because CWD is not required directory.".toList]
      ∧ (∀ e ∈ s.trace, e = .fopen LOG_PATH ∨ e = .getcwd ∨ ∃ ts m, e = .log ts m)
      ∧ (∀ p, Event.stat p ∉ s.trace)
      ∧ reportCount s.trace = 0
      ∧ s.stdin = w.stdin := by
  refine ⟨_, main_dir_fail w hopen hcwd _, ?_, ?_, ?_, ?_, ?_⟩
  · simp [logMsgs]
  · simp
  · simp
  · have h : dirFailure w ≠ BEGIN_REPORT := by
      unfold dirFailure BEGIN_REPORT
      split <;> simp
    simp [reportCount, logMsgs, BEGIN_REPORT, List.count_cons, Ne.symm h]
    exact fun h2 => h (by rw [h2]; rfl)
  · simp

theorem main_wrong_directory_witness :
    ∃ s, main (demoWorld "/opt/cataised/hbwchat/".toList false "r\nq\n".toList) = some (1, s)
      ∧ logMsgs s.trace = ["Program start.".toList,
          dirFailure (demoWorld "/opt/cataised/hbwchat/".toList false "r\nq\n".toList),
          "Exiting because CWD is not required directory.".toList]
      ∧ (∀ e ∈ s.trace, e = .fopen LOG_PATH ∨ e = .getcwd ∨ ∃ ts m, e = .log ts m)
      ∧ (∀ p, Event.stat p ∉ s.trace)
      ∧ reportCount s.trace = 0
      ∧ s.stdin = "r\nq\n".toList :=
  main_wrong_directory (demoWorld "/opt/cataised/hbwchat/".toList false "r\nq\n".toList) rfl
    (fun h => absurd (Except.ok.inj h) (by decide))

/-! ## Claims about the guard and the driver -/

/-- Claim C2: with the directory check passed, an existing lock file ends the
run with status 1 after the lock-file line, before any report or any read of
the input; without the lock file, exactly one report is written before the
first `getchar`. -/
theorem lock_file_gate (w : World) (hopen : w.log_errno = none)
    (hcwd : w.getcwd = .ok REQUIRED_DIR) :
    (w.stat LOCK_PATH = true →
      ∃ s, main w = some (1, s)
        ∧ logMsgs s.trace = ["Program start.".toList,
            "OK: Running from required directory: /opt/cataised/hbwchat".toList,
            "Lock file exists (/tmp/hwbchat.lock). Exiting.".toList]
        ∧ reportCount s.trace = 0
        ∧ (∀ r, Event.getchar r ∉ s.trace)
        ∧ s.stdin = w.stdin)
    ∧ (w.stat LOCK_PATH = false →
      ∃ s pre post, main w = some (0, s)
        ∧ s.trace = pre ++ Event.getchar w.stdin.head? :: post
        ∧ (∀ r, Event.getchar r ∉ pre)
        ∧ reportCount pre = 1
        ∧ (logMsgs pre).count END_REPORT = 1) := by
  constructor
  · intro hlock
    refine ⟨_, main_locked w hopen hcwd hlock _, ?_, ?_, ?_, ?_⟩
    · simp [log_line, guardState, logMsgs, LOCK_PATH, REQUIRED_DIR]
    · simp [log_line, guardState, logMsgs, LOCK_PATH, REQUIRED_DIR, reportCount, BEGIN_REPORT]
    · simp [log_line, guardState]
    · simp [log_line, guardState]
  · intro hlock
    obtain ⟨s', ev, h1, h2, _, h4, _⟩ := main_pass_spec w hopen hcwd hlock
    obtain ⟨r1, r2, r3, r4⟩ := write_report_once_msgs w (guardState w) rfl
    obtain ⟨_, _, _, _, rv, _, r6, _, _, r8⟩ := write_report_once_ext w
      (s := guardState w) rfl
    have r2' : (write_report_once w (guardState w)).stdin = w.stdin := r2
    refine ⟨_, (write_report_once w (guardState w)).trace
        ++ [.log (strftime (w.localtime (write_report_once w (guardState w)).ticks))
              "Menu: (r)efresh report, (q)uit".toList, .stdout "hwbchat> [r/q]: ".toList],
      ev ++ [.log (strftime (w.localtime s'.ticks)) "Program exit.".toList], h1, ?_, ?_, ?_, ?_⟩
    · rw [log_line_eq _ _ _ h2]
      show s'.trace ++ _ = _
      rw [h4, menuHead, r2']
      simp [List.append_assoc]
    · intro r hr
      rw [r6] at hr
      simp only [List.mem_append, List.mem_cons, List.mem_singleton, List.not_mem_nil,
        or_false] at hr
      rcases hr with (hr | hr) | hr | hr
      · simp [guardState] at hr
      · exact r8 _ hr
      · cases hr
      · cases hr
    · rw [reportCount_append, reportCount_report w _ rfl, reportCount_guard]
      simp [reportCount, logMsgs, BEGIN_REPORT]
    · have hE : END_REPORT ∉ reportBody w (w.host (guardState w).ticks) :=
        fun hm => (r4 _ hm).2 (by decide)
      rw [logMsgs_append, r3, List.count_append, List.count_append, List.count_append,
        List.count_cons_of_ne (by decide), List.count_eq_zero_of_not_mem hE]
      simp [guardState, logMsgs, END_REPORT, REQUIRED_DIR]

theorem lock_file_gate_witness :
    (∃ s, main (demoWorld REQUIRED_DIR true "r\nq\n".toList) = some (1, s)
        ∧ reportCount s.trace = 0 ∧ s.stdin = "r\nq\n".toList)
    ∧ (∃ s pre post, main (demoWorld REQUIRED_DIR false "r\nq\n".toList) = some (0, s)
        ∧ s.trace = pre ++ Event.getchar (some 'r') :: post
        ∧ (∀ r, Event.getchar r ∉ pre) ∧ reportCount pre = 1) := by
  obtain ⟨s, h1, _, h3, _, h5⟩ :=
    (lock_file_gate (demoWorld REQUIRED_DIR true "r\nq\n".toList) rfl rfl).1 rfl
  obtain ⟨t, pre, post, k1, k2, k3, k4, _⟩ :=
    (lock_file_gate (demoWorld REQUIRED_DIR false "r\nq\n".toList) rfl rfl).2 rfl
  exact ⟨⟨s, h1, h3, h5⟩, ⟨t, pre, post, k1, k2, k3, k4⟩⟩

/-- Claim C3: a guarded run always ends with status 0 and holds one report
plus one per `r`/`R` command processed before the first `q`/`Q` or the end of
input; any other command adds no report and the loop goes on. -/
theorem driver_report_count (w : World) (hopen : w.log_errno = none)
    (hcwd : w.getcwd = .ok REQUIRED_DIR) (hlock : w.stat LOCK_PATH = false) :
    ∃ s, main w = some (0, s)
      ∧ reportCount s.trace = 1 + (processed w.stdin).countP isRefresh
      ∧ (w.stdin = "r\nr\nq\n".toList → reportCount s.trace = 3)
      ∧ (w.stdin = [] → reportCount s.trace = 1)
      ∧ (∀ fuel k c rest tr, isQuit c = false → isRefresh c = false →
          ∃ s', menu_loop w (fuel + 1) ⟨true, k, c :: rest, tr⟩ = menu_loop w fuel s'
            ∧ s'.g_log = true ∧ reportCount s'.trace = reportCount tr
            ∧ s'.stdin = (consume_rest rest).2) := by
  obtain ⟨s', ev, h1, _, h3, _, _⟩ := main_pass_spec w hopen hcwd hlock
  refine ⟨_, h1, h3, ?_, ?_, ?_⟩
  · intro hin
    rw [h3, hin]
    decide
  · intro hin
    rw [h3, hin]
    decide
  · intro fuel k c rest tr hq hr
    have hq' : ¬(c = 'q' ∨ c = 'Q') := by simpa [isQuit] using hq
    have hr' : ¬(c = 'r' ∨ c = 'R') := by simpa [isRefresh] using hr
    refine ⟨_, by rw [menu_loop_cons, if_neg hq', if_neg hr'], ?_, ?_, ?_⟩
    · rw [log_line_eq _ _ _ rfl]
    · rw [log_line_eq _ _ _ rfl]
      have hq0 : reportCount (consume_rest rest).1 = 0 := by
        unfold reportCount
        apply List.count_eq_zero_of_not_mem
        intro hm
        obtain ⟨ts, hts⟩ := mem_logMsgs hm
        exact consume_rest_events rest _ hts _ _ rfl
      have hmc : reportCount (menuHead w ⟨true, k, c :: rest, tr⟩) = 0 := by
        simp [menuHead, reportCount, logMsgs, BEGIN_REPORT]
      simp only [reportCount_append, hq0, hmc]
      rw [reportCount_log_ne _ (by simp [BEGIN_REPORT])]
      simp
    · rw [log_line_eq _ _ _ rfl]

theorem driver_report_count_witness :
    ∃ s, main (demoWorld REQUIRED_DIR false "r\nr\nq\n".toList) = some (0, s)
      ∧ reportCount s.trace = 3 := by
  obtain ⟨s, h1, _, h3, _⟩ :=
    driver_report_count (demoWorld REQUIRED_DIR false "r\nr\nq\n".toList) rfl rfl rfl
  exact ⟨s, h1, h3 rfl⟩

/-- Claim C9, the code at the failing input: on the input `"\nr\nq\n"` the
first command read is the newline of the empty first line, the loop that
consumes the rest of the line then swallows the whole second line `r`, and
the second command is the `q` of the third line; no refresh is ever run. -/
theorem empty_line_swallows_next_line (w : World) (fuel k : Nat) (tr : List Event) :
    menu_loop w (fuel + 2) ⟨true, k, "\nr\nq\n".toList, tr⟩
      = some ⟨true, k + 4, [], tr ++
        [.log (strftime (w.localtime k)) "Menu: (r)efresh report, (q)uit".toList,
         .stdout "hwbchat> [r/q]: ".toList,
         .getchar (some '\n'), .getchar (some 'r'), .getchar (some '\n'),
         .log (strftime (w.localtime (k + 1))) "Unknown command: \n".toList,
         .log (strftime (w.localtime (k + 2))) "Menu: (r)efresh report, (q)uit".toList,
         .stdout "hwbchat> [r/q]: ".toList,
         .getchar (some 'q'), .getchar (some '\n'),
         .log (strftime (w.localtime (k + 3))) "User requested quit.".toList]⟩ := by
  simp [menu_loop_cons, menuHead, consume_rest, log_line]

/-! ## Claims about the disk and memory inspectors -/

theorem mul_mod_small (b t : Nat) (h : b * t < 2 ^ 64) :
    (b % 2 ^ 64 * (t % 2 ^ 64)) % 2 ^ 64 = b * t := by
  rw [← Nat.mul_mod]
  exact Nat.mod_eq_of_lt h

theorem disk_mb_exact (vfs : Statvfs) (hft : vfs.f_bfree ≤ vfs.f_blocks)
    (h1 : vfs.f_frsize * vfs.f_blocks < 2 ^ 64) (h2 : vfs.f_frsize * vfs.f_bfree < 2 ^ 64)
    (h3 : vfs.f_frsize * vfs.f_bavail < 2 ^ 64) :
    disk_mb vfs = (vfs.f_frsize * vfs.f_blocks / 1048576,
      (vfs.f_frsize * vfs.f_blocks - vfs.f_frsize * vfs.f_bfree) / 1048576,
      vfs.f_frsize * vfs.f_bavail / 1048576) := by
  have hle : vfs.f_frsize * vfs.f_bfree ≤ vfs.f_frsize * vfs.f_blocks :=
    Nat.mul_le_mul_left _ hft
  have hu : (vfs.f_frsize * vfs.f_blocks + 2 ^ 64 - vfs.f_frsize * vfs.f_bfree) % 2 ^ 64
      = vfs.f_frsize * vfs.f_blocks - vfs.f_frsize * vfs.f_bfree := by
    have : vfs.f_frsize * vfs.f_blocks + 2 ^ 64 - vfs.f_frsize * vfs.f_bfree
        = (vfs.f_frsize * vfs.f_blocks - vfs.f_frsize * vfs.f_bfree) + 2 ^ 64 := by omega
    rw [this, Nat.add_mod_right]
    exact Nat.mod_eq_of_lt (by omega)
  simp only [disk_mb, mul_mod_small _ _ h1, mul_mod_small _ _ h2, mul_mod_small _ _ h3, hu]

/-- Claim C5: when the three byte counts fit in 64 bits and no more blocks
are free than exist, `log_disk_space_root` logs the total, the used and the
available bytes in whole units of 1048576 bytes; a disk of 100,000,000 bytes
with 40,000,000 free and 35,000,000 available is logged as 95 / 57 / 33. -/
theorem disk_space_megabytes (w : World) (h : Host) (s : St) (vfs : Statvfs)
    (hs : s.g_log = true) (hv : h.statvfs = .ok vfs) (hft : vfs.f_bfree ≤ vfs.f_blocks)
    (h1 : vfs.f_frsize * vfs.f_blocks < 2 ^ 64) (h2 : vfs.f_frsize * vfs.f_bfree < 2 ^ 64)
    (h3 : vfs.f_frsize * vfs.f_bavail < 2 ^ 64) :
    logMsgs (log_disk_space_root w h s).trace = logMsgs s.trace ++
      ["Disk (/): total=".toList ++ fmtU (vfs.f_frsize * vfs.f_blocks / 1048576)
        ++ " MB used=".toList
        ++ fmtU ((vfs.f_frsize * vfs.f_blocks - vfs.f_frsize * vfs.f_bfree) / 1048576)
        ++ " MB avail=".toList ++ fmtU (vfs.f_frsize * vfs.f_bavail / 1048576)
        ++ " MB".toList]
    ∧ (vfs.f_frsize * vfs.f_blocks = 100000000 → vfs.f_frsize * vfs.f_bfree = 40000000 →
        vfs.f_frsize * vfs.f_bavail = 35000000 →
        logMsgs (log_disk_space_root w h s).trace = logMsgs s.trace ++
          ["Disk (/): total=95 MB used=57 MB avail=33 MB".toList]) := by
  have hm : logMsgs (log_disk_space_root w h s).trace = logMsgs s.trace ++
      ["Disk (/): total=".toList ++ fmtU (vfs.f_frsize * vfs.f_blocks / 1048576)
        ++ " MB used=".toList
        ++ fmtU ((vfs.f_frsize * vfs.f_blocks - vfs.f_frsize * vfs.f_bfree) / 1048576)
        ++ " MB avail=".toList ++ fmtU (vfs.f_frsize * vfs.f_bavail / 1048576)
        ++ " MB".toList] := by
    unfold log_disk_space_root
    rw [hv]
    dsimp only
    rw [log_line_eq _ _ _ (by exact hs), disk_mb_exact vfs hft h1 h2 h3]
    show logMsgs (s.trace ++ [_] ++ [_]) = _
    rw [logMsgs_append, logMsgs_append, logMsgs_log]
    simp [logMsgs]
  refine ⟨hm, ?_⟩
  intro e1 e2 e3
  rw [hm, e1, e2, e3]
  rfl

theorem disk_space_megabytes_witness :
    logMsgs (log_disk_space_root (demoWorld REQUIRED_DIR false [])
        ⟨fun _ => .error 2, .ok ⟨4000, 25000, 10000, 8750⟩, .error 13, 0⟩ St.fresh).trace
      = ["Disk (/): total=95 MB used=57 MB avail=33 MB".toList] :=
  (disk_space_megabytes (demoWorld REQUIRED_DIR false [])
    ⟨fun _ => .error 2, .ok ⟨4000, 25000, 10000, 8750⟩, .error 13, 0⟩ St.fresh
    ⟨4000, 25000, 10000, 8750⟩ rfl rfl (by decide) (by decide) (by decide) (by decide)).2
    rfl rfl rfl

theorem fgetsAll_append (size : Nat) (p rest : List Char) : ∀ (room : Nat) (cur : List Char),
    fgetsAll size room cur (p ++ '\n' :: rest)
      = fgetsAll size room cur (p ++ ['\n']) ++ fgetsAll size (size - 1) [] rest := by
  induction p with
  | nil => intro room cur; simp [fgetsAll]
  | cons c p ih =>
    intro room cur
    simp only [List.cons_append, fgetsAll, List.append_eq]
    split
    · rw [ih]; rfl
    · rw [ih]

theorem fgetsLines_append (size : Nat) (p rest : List Char) :
    fgetsLines size (p ++ '\n' :: rest) = fgetsLines size (p ++ ['\n']) ++ fgetsLines size rest :=
  fgetsAll_append size p rest _ _

theorem meminfo_line_keeps (v : MemVals) (l : List Char)
    (h : sscanf_lu "MemTotal: %lu kB".toList (cstr l) = none) :
    (meminfo_line v l).memTotal = v.memTotal := by
  unfold meminfo_line
  rw [h]
  dsimp only
  repeat' split
  all_goals rfl

theorem meminfo_fold_keeps (ls : List (List Char)) : ∀ (v : MemVals),
    (∀ l ∈ ls, sscanf_lu "MemTotal: %lu kB".toList (cstr l) = none) →
    (ls.foldl meminfo_line v).memTotal = v.memTotal := by
  induction ls with
  | nil => intro v _; rfl
  | cons l ls ih =>
    intro v h
    rw [List.foldl_cons, ih _ (fun x hx => h x (List.mem_cons_of_mem _ hx)),
      meminfo_line_keeps v l (h l (List.mem_cons_self _ _))]

theorem meminfo_line_memTotal (v : MemVals) :
    (meminfo_line v "MemTotal: 16384000 kB\n".toList).memTotal = 16384000 := by
  have h : sscanf_lu "MemTotal: %lu kB".toList (cstr "MemTotal: 16384000 kB\n".toList)
      = some 16384000 := by decide
  unfold meminfo_line
  rw [h]

theorem meminfo_scan_memTotal (pre post : List Char)
    (hpre : pre = [] ∨ ∃ p, pre = p ++ ['\n'])
    (hpost : ∀ l ∈ fgetsLines 256 post, sscanf_lu "MemTotal: %lu kB".toList (cstr l) = none) :
    (meminfo_scan (pre ++ "MemTotal: 16384000 kB\n".toList ++ post)).memTotal = 16384000 := by
  have hL : fgetsLines 256 ("MemTotal: 16384000 kB".toList ++ ['\n'])
      = ["MemTotal: 16384000 kB\n".toList] := by decide
  have hsplit : "MemTotal: 16384000 kB\n".toList ++ post
      = "MemTotal: 16384000 kB".toList ++ '\n' :: post := by simp
  have key : ∀ A : List (List Char), ((A ++ ["MemTotal: 16384000 kB\n".toList]
      ++ fgetsLines 256 post).foldl meminfo_line ⟨0, 0, 0, 0, 0⟩).memTotal = 16384000 := by
    intro A
    rw [List.foldl_append, List.foldl_append, meminfo_fold_keeps _ _ hpost]
    exact meminfo_line_memTotal _
  unfold meminfo_scan
  rcases hpre with h | ⟨p, h⟩
  · subst h
    rw [List.nil_append, hsplit, fgetsLines_append, hL]
    exact key []
  · subst h
    have hc : p ++ ['\n'] ++ "MemTotal: 16384000 kB\n".toList ++ post
        = p ++ '\n' :: ("MemTotal: 16384000 kB".toList ++ '\n' :: post) := by simp
    rw [hc, fgetsLines_append 256 p, fgetsLines_append 256 "MemTotal: 16384000 kB".toList post,
      hL, ← List.append_assoc]
    exact key _

/-- Claim C4, as the code has it: for a memory-info source holding the line
`MemTotal: 16384000 kB` (at the start of a line, and with no later line that
carries a `MemTotal` field), the `MemTotal` value `log_meminfo` logs, the kB
value integer-divided by 1024, is 16000. -/
theorem meminfo_memtotal_logged (w : World) (h : Host) (s : St) (pre post : List Char)
    (hs : s.g_log = true)
    (hpre : pre = [] ∨ ∃ p, pre = p ++ ['\n'])
    (hpost : ∀ l ∈ fgetsLines 256 post, sscanf_lu "MemTotal: %lu kB".toList (cstr l) = none)
    (hf : h.fopen "/proc/meminfo".toList
      = .ok (pre ++ "MemTotal: 16384000 kB\n".toList ++ post)) :
    (meminfo_scan (pre ++ "MemTotal: 16384000 kB\n".toList ++ post)).memTotal / 1024 = 16000
    ∧ logMsgs (log_meminfo w h s).trace = logMsgs s.trace ++
        ["Memory: MemTotal=16000 MB MemAvailable=".toList
          ++ fmtU ((meminfo_scan (pre ++ "MemTotal: 16384000 kB\n".toList ++ post)).memAvail / 1024)
          ++ " MB MemFree=".toList
          ++ fmtU ((meminfo_scan (pre ++ "MemTotal: 16384000 kB\n".toList ++ post)).memFree / 1024)
          ++ " MB".toList,
         "Swap:   SwapTotal=".toList
          ++ fmtU ((meminfo_scan (pre ++ "MemTotal: 16384000 kB\n".toList ++ post)).swapTotal / 1024)
          ++ " MB SwapFree=".toList
          ++ fmtU ((meminfo_scan (pre ++ "MemTotal: 16384000 kB\n".toList ++ post)).swapFree / 1024)
          ++ " MB".toList] := by
  have hv := meminfo_scan_memTotal pre post hpre hpost
  refine ⟨by rw [hv], ?_⟩
  unfold log_meminfo
  rw [hf]
  dsimp only
  rw [log_line_eq _ _ _ (by rw [log_line_eq _ _ _ (by exact hs)]),
    log_line_eq _ _ _ (by exact hs), hv]
  have h16 : fmtU (16384000 / 1024) = "16000".toList := by decide
  show logMsgs (s.trace ++ [_] ++ [_] ++ [_]) = _
  rw [logMsgs_append, logMsgs_append, logMsgs_append, logMsgs_log, logMsgs_log, h16]
  simp [logMsgs]

theorem meminfo_memtotal_logged_witness :
    (meminfo_scan ("MemFree: 1 kB\n".toList ++ "MemTotal: 16384000 kB\n".toList
        ++ "SwapFree: 2 kB\n".toList)).memTotal / 1024 = 16000 :=
  (meminfo_memtotal_logged (demoWorld REQUIRED_DIR false [])
    ⟨fun _ => .ok ("MemFree: 1 kB\n".toList ++ "MemTotal: 16384000 kB\n".toList
        ++ "SwapFree: 2 kB\n".toList), .error 5, .error 13, 0⟩ St.fresh
    "MemFree: 1 kB\n".toList "SwapFree: 2 kB\n".toList rfl
    (Or.inr ⟨"MemFree: 1 kB".toList, rfl⟩) (by decide) rfl).1

/-- Claim C4 as stated fails: on the source `MemTotal: 16384000 kB` the value
logged is 16000, not 15625. -/
theorem meminfo_memtotal_not_15625 :
    (meminfo_scan "MemTotal: 16384000 kB\n".toList).memTotal / 1024 ≠ 15625
    ∧ msgsOf (log_meminfo (demoWorld REQUIRED_DIR false []) memHost)
      = ["Memory: MemTotal=16000 MB MemAvailable=0 MB MemFree=0 MB".toList,
         "Swap:   SwapTotal=0 MB SwapFree=0 MB".toList] := by
  constructor
  · decide
  · decide

/-! ## Claims about the process snapshot -/

theorem digitChar_spec (d : Nat) (hd : d < 10) :
    isdigit (Nat.digitChar d) = true ∧ (Nat.digitChar d).toNat - 48 = d := by
  interval_cases d <;> decide

theorem toDigitsCore_acc (fuel : Nat) : ∀ (n : Nat) (ds : List Char),
    Nat.toDigitsCore 10 fuel n ds = Nat.toDigitsCore 10 fuel n [] ++ ds := by
  induction fuel with
  | zero => intro n ds; simp [Nat.toDigitsCore]
  | succ f ih =>
    intro n ds
    simp only [Nat.toDigitsCore]
    split
    · simp
    · rw [ih _ (_ :: ds), ih _ [_]]
      simp

theorem toDigitsCore_fuel (fuel : Nat) : ∀ (fuel' n : Nat), n < fuel → n < fuel' →
    Nat.toDigitsCore 10 fuel n [] = Nat.toDigitsCore 10 fuel' n [] := by
  induction fuel with
  | zero => intro _ n h; omega
  | succ f ih =>
    intro fuel' n h h'
    obtain ⟨f', rfl⟩ : ∃ f', fuel' = f' + 1 := ⟨fuel' - 1, by omega⟩
    simp only [Nat.toDigitsCore]
    split
    · rfl
    · rename_i hn
      rw [toDigitsCore_acc f, toDigitsCore_acc f', ih f' (n / 10) (by omega) (by omega)]

theorem fmtU_lt (n : Nat) (h : n < 10) : fmtU n = [Nat.digitChar n] := by
  have h0 : n / 10 = 0 := by omega
  have h1 : n % 10 = n := by omega
  simp [fmtU, Nat.toDigits, Nat.toDigitsCore, h0, h1]

theorem fmtU_step (n : Nat) (h : 10 ≤ n) :
    fmtU n = fmtU (n / 10) ++ [Nat.digitChar (n % 10)] := by
  have h0 : n / 10 ≠ 0 := by omega
  have e : Nat.toDigitsCore 10 (n + 1) n []
      = Nat.toDigitsCore 10 n (n / 10) [Nat.digitChar (n % 10)] := by
    simp [Nat.toDigitsCore, h0]
  show Nat.toDigitsCore 10 (n + 1) n []
    = Nat.toDigitsCore 10 (n / 10 + 1) (n / 10) [] ++ [Nat.digitChar (n % 10)]
  rw [e, toDigitsCore_acc, toDigitsCore_fuel n (n / 10 + 1) (n / 10) (by omega) (by omega)]

theorem digitsVal_snoc (l : List Char) (c : Char) :
    digitsVal (l ++ [c]) = 10 * digitsVal l + (c.toNat - 48) := by
  simp [digitsVal, List.foldl_append]

theorem fmtU_spec (n : Nat) :
    fmtU n ≠ [] ∧ (∀ c ∈ fmtU n, isdigit c = true) ∧ digitsVal (fmtU n) = n := by
  induction n using Nat.strong_induction_on with
  | _ n ih =>
    by_cases h : n < 10
    · rw [fmtU_lt n h]
      obtain ⟨h1, h2⟩ := digitChar_spec n h
      refine ⟨by simp, by simpa using h1, ?_⟩
      simp [digitsVal, h2]
    · obtain ⟨i1, i2, i3⟩ := ih (n / 10) (by omega)
      obtain ⟨h1, h2⟩ := digitChar_spec (n % 10) (Nat.mod_lt _ (by decide))
      rw [fmtU_step n (by omega)]
      refine ⟨by simp, ?_, ?_⟩
      · intro c hc
        rcases List.mem_append.1 hc with hc | hc
        · exact i2 c hc
        · rw [List.mem_singleton.1 hc]; exact h1
      · rw [digitsVal_snoc, i3, h2]
        omega

theorem isdigit_not_space (c : Char) (h : isdigit c = true) :
    isspace c = false ∧ c ≠ '-' ∧ c ≠ '+' := by
  refine ⟨?_, ?_, ?_⟩
  · cases hs : isspace c
    · rfl
    · exfalso
      simp only [isspace, Bool.or_eq_true, decide_eq_true_eq] at hs
      rcases hs with ((((hs | hs) | hs) | hs) | hs) | hs <;> subst hs <;> revert h <;> decide
  · rintro rfl; revert h; decide
  · rintro rfl; revert h; decide

/-! ## The model of `strtol` on numerals -/

theorem dropWhile_skip (p : Char → Bool) (ws l : List Char) (hws : ∀ c ∈ ws, p c = true)
    (hl : ∀ c, l.head? = some c → p c = false) : (ws ++ l).dropWhile p = l := by
  induction ws with
  | nil =>
    cases l with
    | nil => rfl
    | cons c l => simp [List.dropWhile, hl c rfl]
  | cons a ws ih =>
    simp only [List.cons_append, List.dropWhile, hws a (List.mem_cons_self _ _)]
    exact ih (fun c hc => hws c (List.mem_cons_of_mem _ hc))

theorem takeWhile_all (p : Char → Bool) (l : List Char) (h : ∀ c ∈ l, p c = true) :
    l.takeWhile p = l ∧ l.dropWhile p = [] := by
  induction l with
  | nil => simp
  | cons a l ih =>
    have ha := h a (List.mem_cons_self _ _)
    obtain ⟨i1, i2⟩ := ih (fun c hc => h c (List.mem_cons_of_mem _ hc))
    simp [List.takeWhile, List.dropWhile, ha, i1, i2]

theorem strtol_numeral (ws sg ds : List Char) (hws : ∀ c ∈ ws, isspace c = true)
    (hsg : sg = [] ∨ sg = ['+']) (hne : ds ≠ []) (hds : ∀ c ∈ ds, isdigit c = true) :
    strtol (ws ++ sg ++ ds) = (max LONG_MIN (min LONG_MAX (digitsVal ds : Int)), []) := by
  obtain ⟨d, ds', rfl⟩ : ∃ d ds', ds = d :: ds' := by
    cases ds with
    | nil => exact absurd rfl hne
    | cons d ds' => exact ⟨d, ds', rfl⟩
  obtain ⟨hd1, hd2, hd3⟩ := isdigit_not_space d (hds d (List.mem_cons_self _ _))
  obtain ⟨t1, t2⟩ := takeWhile_all isdigit (d :: ds') hds
  have hdrop : (ws ++ sg ++ d :: ds').dropWhile isspace = sg ++ d :: ds' := by
    rw [List.append_assoc]
    refine dropWhile_skip isspace ws _ hws ?_
    intro c hc
    rcases hsg with h | h <;> subst h
    · simp at hc; subst hc; exact hd1
    · simp at hc; subst hc; decide
  unfold strtol
  simp only [hdrop]
  rcases hsg with h | h <;> subst h
  · simp [hd2, hd3, t1, t2]
  · simp [t1, t2]

theorem clamp_pos (v : Int) : 0 < max LONG_MIN (min LONG_MAX v) ↔ 0 < v := by
  have h1 : LONG_MIN = -(2 ^ 63) := rfl
  have h2 : LONG_MAX = 2 ^ 63 - 1 := rfl
  rw [h1, h2]
  constructor
  · intro h
    rcases lt_max_iff.1 h with h | h
    · omega
    · exact (lt_min_iff.1 h).2
  · intro h
    exact lt_max_iff.2 (Or.inr (lt_min_iff.2 ⟨by norm_num, h⟩))

theorem isCandidate_numeral (name : List Char) (h : isCandidate name) :
    positiveNumeral name := by
  obtain ⟨h1, h2⟩ := h
  unfold strtol at h1 h2
  simp only at h1 h2
  by_cases hds : List.takeWhile isdigit
      (if (name.dropWhile isspace).head? = some '-' ∨ (name.dropWhile isspace).head? = some '+'
        then (name.dropWhile isspace).tail else name.dropWhile isspace) = []
  · rw [if_pos hds] at h2
    exact absurd h2 (lt_irrefl _)
  · rw [if_neg hds] at h1 h2
    simp only at h1 h2
    rw [clamp_pos] at h2
    have hsplit := List.takeWhile_append_dropWhile isspace name
    have hneg : (name.dropWhile isspace).head? ≠ some '-' := by
      intro hn
      rw [if_pos (by simpa using hn)] at h2
      have : (0 : Int) ≤ digitsVal (List.takeWhile isdigit
        (if (name.dropWhile isspace).head? = some '-' ∨ (name.dropWhile isspace).head? = some '+'
          then (name.dropWhile isspace).tail else name.dropWhile isspace)) := Int.natCast_nonneg _
      omega
    rw [if_neg (by simpa using hneg)] at h2
    have hws : ∀ c ∈ name.takeWhile isspace, isspace c = true :=
      fun c hc => List.mem_takeWhile_imp hc
    by_cases hplus : (name.dropWhile isspace).head? = some '+'
    · rw [if_pos (Or.inr hplus)] at h1 h2 hds
      have hu := List.takeWhile_append_dropWhile isdigit (name.dropWhile isspace).tail
      rw [h1, List.append_nil] at hu
      have ht : name.dropWhile isspace = '+' :: (name.dropWhile isspace).tail := by
        cases ht : name.dropWhile isspace with
        | nil => rw [ht] at hplus; cases hplus
        | cons a l => rw [ht] at hplus; simp at hplus; subst hplus; rfl
      refine ⟨name.takeWhile isspace, ['+'], (name.dropWhile isspace).tail, ?_, hws,
        Or.inr rfl, ?_, ?_, ?_⟩
      · rw [List.append_assoc, List.singleton_append, ← ht, hsplit]
      · rw [← hu]; exact hds
      · intro c hc
        rw [← hu] at hc
        exact List.mem_takeWhile_imp hc
      · rw [hu] at h2; exact_mod_cast h2
    · rw [if_neg (by simp [hneg, hplus])] at h1 h2 hds
      have hu := List.takeWhile_append_dropWhile isdigit (name.dropWhile isspace)
      rw [h1, List.append_nil] at hu
      refine ⟨name.takeWhile isspace, [], name.dropWhile isspace, ?_, hws, Or.inl rfl, ?_, ?_, ?_⟩
      · rw [List.append_nil, hsplit]
      · rw [← hu]; exact hds
      · intro c hc
        rw [← hu] at hc
        exact List.mem_takeWhile_imp hc
      · rw [hu] at h2; exact_mod_cast h2

theorem numeral_isCandidate (name : List Char) (h : positiveNumeral name) :
    isCandidate name := by
  obtain ⟨ws, sg, ds, rfl, hws, hsg, hne, hds, hpos⟩ := h
  unfold isCandidate
  rw [strtol_numeral ws sg ds hws hsg hne hds]
  exact ⟨rfl, (clamp_pos _).2 (by exact_mod_cast hpos)⟩

theorem snapshot_loop_full (w : World) (h : Host) (max_entries : Int)
    (names : List (List Char)) (count : Int) (s : St) (hc : ¬ count < max_entries) :
    snapshot_loop w h max_entries names count s = (count, s) := by
  cases names with
  | nil => rfl
  | cons n r => simp only [snapshot_loop, if_neg hc]

theorem snapshot_loop_skip (w : World) (h : Host) (max_entries : Int) (name : List Char)
    (rest : List (List Char)) (count : Int) (s : St) (hn : ¬ isCandidate name) :
    snapshot_loop w h max_entries (name :: rest) count s
      = snapshot_loop w h max_entries rest count s := by
  by_cases hc : count < max_entries
  · simp only [snapshot_loop, if_pos hc]
    by_cases he : (strtol name).2 ≠ []
    · rw [if_pos he]
    · rw [if_neg he]
      have hp : (strtol name).1 ≤ 0 := by
        by_contra hp
        exact hn ⟨not_not.1 he, not_le.1 hp⟩
      rw [if_pos hp]
  · rw [snapshot_loop_full _ _ _ _ _ _ hc, snapshot_loop_full _ _ _ _ _ _ hc]

theorem snapshot_loop_candidate (w : World) (h : Host) (max_entries : Int) (name : List Char)
    (rest : List (List Char)) (count : Int) (s : St) (hn : isCandidate name)
    (hc : count < max_entries) :
    snapshot_loop w h max_entries (name :: rest) count s
      = match procLine h name with
        | some line => snapshot_loop w h max_entries rest (count + 1)
            (log_line w (emit s (.fopen (commPath (strtol name).1))) line)
        | none => snapshot_loop w h max_entries rest count
            (emit s (.fopen (commPath (strtol name).1))) := by
  have he : ¬ (strtol name).2 ≠ [] := not_not.2 hn.1
  have hp : ¬ (strtol name).1 ≤ 0 := not_le.2 hn.2
  simp only [snapshot_loop, if_pos hc, if_neg he, if_neg hp]
  unfold procLine commPath
  rw [if_pos hn]
  cases hf : h.fopen ("/proc/".toList ++ fmtD (strtol name).1 ++ "/comm".toList) with
  | error e => rfl
  | ok content =>
    dsimp only
    cases hl : fgetsLines 128 content with
    | nil => rfl
    | cons comm more => rfl

/-- Claim C10, amended: the snapshot loop treats a directory entry as a
candidate exactly when `strtol` consumes its whole name and yields a positive
value, that is when the name is optional white space, an optional plus sign
and one or more decimal digits denoting a positive integer; every other name
is skipped without any effect; for a candidate the path opened and the PID
logged are those of the parsed value (the digits' value, at most `LONG_MAX`),
which are the entry's own name when the name is the plain decimal numeral of
a positive `long`. -/
theorem candidate_entries (w : World) (h : Host) (max_entries : Int) (name : List Char)
    (rest : List (List Char)) (count : Int) (s : St) :
    (isCandidate name ↔ positiveNumeral name)
    ∧ (¬ isCandidate name →
        snapshot_loop w h max_entries (name :: rest) count s
          = snapshot_loop w h max_entries rest count s)
    ∧ (isCandidate name → count < max_entries →
        snapshot_loop w h max_entries (name :: rest) count s
          = match procLine h name with
            | some line => snapshot_loop w h max_entries rest (count + 1)
                (log_line w (emit s (.fopen (commPath (strtol name).1))) line)
            | none => snapshot_loop w h max_entries rest count
                (emit s (.fopen (commPath (strtol name).1))))
    ∧ (∀ ws sg ds, name = ws ++ sg ++ ds → (∀ c ∈ ws, isspace c = true) →
        (sg = [] ∨ sg = ['+']) → ds ≠ [] → (∀ c ∈ ds, isdigit c = true) →
        (strtol name).1 = min LONG_MAX (digitsVal ds : Int))
    ∧ (∀ n : Nat, 0 < n → (n : Int) ≤ LONG_MAX → name = fmtU n →
        isCandidate name ∧ (strtol name).1 = n
          ∧ commPath (strtol name).1 = "/proc/".toList ++ name ++ "/comm".toList
          ∧ fmtD (strtol name).1 = name) := by
  refine ⟨⟨isCandidate_numeral name, numeral_isCandidate name⟩,
    snapshot_loop_skip w h max_entries name rest count s,
    snapshot_loop_candidate w h max_entries name rest count s, ?_, ?_⟩
  · intro ws sg ds hname hws hsg hne hds
    rw [hname, strtol_numeral ws sg ds hws hsg hne hds]
    have h1 : LONG_MIN = -(2 ^ 63) := rfl
    have h2 : LONG_MAX = 2 ^ 63 - 1 := rfl
    have h3 : (0 : Int) ≤ digitsVal ds := Int.natCast_nonneg _
    rw [h1, h2] at *
    apply max_eq_right
    apply le_min <;> omega
  · intro n hn hmax hname
    obtain ⟨f1, f2, f3⟩ := fmtU_spec n
    have hst : strtol name = ((n : Int), []) := by
      have := strtol_numeral [] [] (fmtU n) (by simp) (Or.inl rfl) f1 f2
      rw [f3] at this
      rw [hname]
      simp only [List.append_nil, List.nil_append] at this
      rw [this]
      have h1 : LONG_MIN = -(2 ^ 63) := rfl
      rw [min_eq_right hmax, max_eq_right (by rw [h1]; omega)]
    have hfd : fmtD (n : Int) = fmtU n := by
      unfold fmtD
      rw [if_neg (by omega)]
      rfl
    refine ⟨?_, by rw [hst], ?_, ?_⟩
    · unfold isCandidate
      rw [hst]
      exact ⟨rfl, show (0 : Int) < (n : Int) by exact_mod_cast hn⟩
    · rw [hst, commPath, hfd, hname]
    · rw [hst, hfd, hname]

theorem candidate_entries_witness :
    positiveNumeral " +7".toList
    ∧ (strtol "22".toList).1 = 22
    ∧ commPath (strtol "22".toList).1 = "/proc/22/comm".toList := by
  have h := candidate_entries (demoWorld REQUIRED_DIR false []) twoProcHost 20 " +7".toList []
    0 St.fresh
  have k := (candidate_entries (demoWorld REQUIRED_DIR false []) twoProcHost 20 "22".toList []
    0 St.fresh).2.2.2.2 22 (by decide) (by decide) (by decide)
  exact ⟨h.1.1 (by decide), k.2.1, k.2.2.1⟩

/-- Claim C10 as stated fails: the names `+7` and `007` are both treated as
process 7, although the first is not made of digits only and the second is
not the name of the path that is opened. -/
theorem signed_name_is_candidate :
    isCandidate "+7".toList ∧ ¬ digitsOnlyPositive "+7".toList
    ∧ digitsOnlyPositive "007".toList
    ∧ commPath (strtol "007".toList).1 ≠ "/proc/007/comm".toList
    ∧ (log_process_snapshot_limited (demoWorld REQUIRED_DIR false []) signedProcHost 20
        St.fresh).trace
      = [.opendir "/proc".toList,
         .log "2026-11-01 09:05:00".toList "Processes (snapshot, first 20):".toList,
         .fopen "/proc/7/comm".toList,
         .log "2026-11-01 09:05:00".toList "  PID=7 COMM=init".toList,
         .fopen "/proc/7/comm".toList,
         .log "2026-11-01 09:05:00".toList "  PID=7 COMM=init".toList] := by
  refine ⟨by decide, by decide, by decide, by decide, by decide⟩

/-! ## The format of the log -/

theorem pad2_spec (n : Nat) (h : n < 100) :
    ∃ a b, pad2 n = [a, b] ∧ isdigit a = true ∧ isdigit b = true := by
  unfold pad2
  by_cases h10 : n < 10
  · rw [if_pos h10, fmtU_lt n h10]
    exact ⟨_, _, rfl, by decide, (digitChar_spec n h10).1⟩
  · rw [if_neg h10, fmtU_step n (by omega), fmtU_lt (n / 10) (by omega)]
    exact ⟨_, _, rfl, (digitChar_spec _ (by omega)).1,
      (digitChar_spec _ (Nat.mod_lt _ (by decide))).1⟩

theorem year_spec (y : Nat) (h1 : 1000 ≤ y) (h2 : y ≤ 9999) :
    ∃ a b c d, fmtU y = [a, b, c, d] ∧ isdigit a = true ∧ isdigit b = true
      ∧ isdigit c = true ∧ isdigit d = true := by
  rw [fmtU_step y (by omega), fmtU_step (y / 10) (by omega),
    fmtU_step (y / 10 / 10) (by omega), fmtU_lt (y / 10 / 10 / 10) (by omega)]
  exact ⟨_, _, _, _, rfl, (digitChar_spec _ (by omega)).1,
    (digitChar_spec _ (Nat.mod_lt _ (by decide))).1,
    (digitChar_spec _ (Nat.mod_lt _ (by decide))).1,
    (digitChar_spec _ (Nat.mod_lt _ (by decide))).1⟩

theorem isdigit_ne_nl (c : Char) (h : isdigit c = true) : '\n' ≠ c := by
  rintro rfl
  revert h
  decide

/-- A valid time is rendered as a stamp: a newline-free text that makes any
line it opens match the pattern. -/
theorem strftime_spec (t : Tm) (ht : validTm t) :
    '\n' ∉ strftime t ∧ ∀ m, stamped ('[' :: strftime t ++ ']' :: ' ' :: m) = true := by
  obtain ⟨v1, v2, v3, v4, v5, v6⟩ := ht
  obtain ⟨y1, y2, y3, y4, hy, dy1, dy2, dy3, dy4⟩ := year_spec (t.tm_year + 1900) (by omega) v1
  obtain ⟨m1, m2, hm, dm1, dm2⟩ := pad2_spec (t.tm_mon + 1) (by omega)
  obtain ⟨d1, d2, hd, dd1, dd2⟩ := pad2_spec t.tm_mday (by omega)
  obtain ⟨h1, h2, hh, dh1, dh2⟩ := pad2_spec t.tm_hour (by omega)
  obtain ⟨n1, n2, hn, dn1, dn2⟩ := pad2_spec t.tm_min (by omega)
  obtain ⟨s1, s2, hs, ds1, ds2⟩ := pad2_spec t.tm_sec (by omega)
  unfold strftime
  rw [hy, hm, hd, hh, hn, hs]
  constructor
  · simp [isdigit_ne_nl _ dy1, isdigit_ne_nl _ dy2, isdigit_ne_nl _ dy3, isdigit_ne_nl _ dy4,
      isdigit_ne_nl _ dm1, isdigit_ne_nl _ dm2, isdigit_ne_nl _ dd1, isdigit_ne_nl _ dd2,
      isdigit_ne_nl _ dh1, isdigit_ne_nl _ dh2, isdigit_ne_nl _ dn1, isdigit_ne_nl _ dn2,
      isdigit_ne_nl _ ds1, isdigit_ne_nl _ ds2]
  · intro m
    simp [stamped, matchesPat, dy1, dy2, dy3, dy4, dm1, dm2, dd1, dd2, dh1, dh2, dn1, dn2,
      ds1, ds2]

theorem fileLines_line (l rest : List Char) (hl : '\n' ∉ l) :
    fileLines (l ++ '\n' :: rest) = l :: fileLines rest := by
  induction l with
  | nil => simp [fileLines]
  | cons c l ih =>
    have hc : c ≠ '\n' := fun h => hl (by rw [h]; exact List.mem_cons_self _ _)
    have hl' : '\n' ∉ l := fun h => hl (List.mem_cons_of_mem _ h)
    simp only [List.cons_append, fileLines, if_neg hc, List.append_eq, ih hl']

theorem logBytes_cons (e : Event) (t : List Event) :
    logBytes (e :: t) = e.bytes ++ logBytes t := by
  simp [logBytes]

theorem lines_stamped (w : World) (hclock : ∀ n, validTm (w.localtime n)) :
    ∀ t : List Event, LogsOk w t → ∀ line ∈ fileLines (logBytes t), stamped line = true := by
  intro t
  induction t with
  | nil => intro _ line hl; simp [logBytes, fileLines] at hl
  | cons e t ih =>
    intro hok line hl
    have hok' : LogsOk w t := fun ts m hm => hok ts m (List.mem_cons_of_mem _ hm)
    rw [logBytes_cons] at hl
    cases e with
    | log ts m =>
      obtain ⟨⟨k, hk⟩, hm⟩ := hok ts m (List.mem_cons_self _ _)
      obtain ⟨s1, s2⟩ := strftime_spec _ (hclock k)
      have hb : (Event.log ts m).bytes ++ logBytes t
          = ('[' :: ts ++ ']' :: ' ' :: m) ++ '\n' :: logBytes t := by
        simp [Event.bytes]
      have hnl : '\n' ∉ '[' :: ts ++ ']' :: ' ' :: m := by
        rw [hk]
        simp [s1, hm]
      rw [hb, fileLines_line _ _ hnl] at hl
      rcases List.mem_cons.1 hl with h | h
      · rw [h, hk]; exact s2 m
      · exact ih hok' line h
    | _ => exact ih hok' line (by simpa [Event.bytes] using hl)

theorem dirFailure_ok (w : World) (hw : Sane w) (hcwd : ∀ d, w.getcwd = .ok d → '\n' ∉ d) :
    '\n' ∉ dirFailure w := by
  unfold dirFailure
  cases hg : w.getcwd with
  | error e => simp [hw.strerror]
  | ok d => simp [hcwd d hg, REQUIRED_DIR]

theorem main_logsOk (w : World) (hw : Sane w) (hcwd : ∀ d, w.getcwd = .ok d → '\n' ∉ d)
    (hcmd : '\n' ∉ processed w.stdin) :
    ∃ r, main w = some r ∧ LogsOk w r.2.trace := by
  cases hopen : w.log_errno with
  | some e =>
    refine ⟨_, by simp [main, main_fuel, hopen]; rfl, ?_⟩
    intro ts m hm
    simp [emit, St.init] at hm
  | none =>
    by_cases hd : w.getcwd = .ok REQUIRED_DIR
    · cases hlock : w.stat LOCK_PATH with
      | true =>
        refine ⟨_, main_locked w hopen hd hlock _, ?_⟩
        intro ts m hm
        simp only [log_line, guardState, Bool.not_true, Bool.false_eq_true, if_false,
          List.cons_append, List.nil_append, List.mem_cons, List.mem_singleton,
          List.not_mem_nil, or_false] at hm
        rcases hm with h | h | h | h | h | h
        · cases h
        · cases h; exact ⟨⟨_, rfl⟩, by decide⟩
        · cases h
        · cases h; exact ⟨⟨_, rfl⟩, by decide⟩
        · cases h
        · cases h; exact ⟨⟨_, rfl⟩, by decide⟩
      | false =>
        obtain ⟨s', ev, h1, _, _, _, h5⟩ := main_pass_spec w hopen hd hlock
        exact ⟨_, h1, h5 hw hcmd⟩
    · refine ⟨_, main_dir_fail w hopen hd _, ?_⟩
      have hf := dirFailure_ok w hw hcwd
      intro ts m hm
      simp only [List.mem_cons, List.mem_singleton, List.not_mem_nil, or_false] at hm
      rcases hm with h | h | h | h | h
      · cases h
      · cases h; exact ⟨⟨_, rfl⟩, by decide⟩
      · cases h
      · cases h; exact ⟨⟨_, rfl⟩, hf⟩
      · cases h; exact ⟨⟨_, rfl⟩, by decide⟩

/-- Claim C6, amended: in every run in which the clock yields valid times in
four-digit years, the C library renders error texts and uptime numbers on one
line, the working directory holds no newline and no command read by the
driver is a newline, every line of the log matches
`[YYYY-MM-DD HH:MM:SS] <message>`. -/
theorem log_lines_stamped (w : World) (hclock : ∀ n, validTm (w.localtime n)) (hw : Sane w)
    (hcwd : ∀ d, w.getcwd = .ok d → '\n' ∉ d) (hcmd : '\n' ∉ processed w.stdin) :
    ∃ r, main w = some r ∧ ∀ line ∈ fileLines (logBytes r.2.trace), stamped line = true := by
  obtain ⟨r, h1, h2⟩ := main_logsOk w hw hcwd hcmd
  exact ⟨r, h1, lines_stamped w hclock _ h2⟩

theorem log_lines_stamped_witness :
    ∃ r, main (demoWorld REQUIRED_DIR false "r\nx\nq\n".toList) = some r
      ∧ ∀ line ∈ fileLines (logBytes r.2.trace), stamped line = true :=
  log_lines_stamped (demoWorld REQUIRED_DIR false "r\nx\nq\n".toList)
    (fun _ => by simp [validTm, demoWorld])
    ⟨fun e => by simp [demoWorld, fmtU_not_nl], fun c a b h => by simp [demoWorld] at h⟩
    (fun d h => by
      have : d = REQUIRED_DIR := (Except.ok.inj h).symm
      rw [this]
      decide)
    (by decide)

/-- Claim C6 as stated fails: an empty input line is logged as the unknown
command "newline" and leaves an empty line in the log, and a working
directory whose name holds a newline splits the failure line in two. -/
theorem log_line_not_always_stamped :
    (∃ r ∈ main (demoWorld REQUIRED_DIR false "\n".toList),
      r.1 = 0 ∧ [] ∈ fileLines (logBytes r.2.trace) ∧ stamped [] = false)
    ∧ (∃ r ∈ main (demoWorld "/tmp/a\nb".toList false []),
      r.1 = 1 ∧ "b REQUIRED=/opt/cataised/hbwchat".toList ∈ fileLines (logBytes r.2.trace)
        ∧ stamped "b REQUIRED=/opt/cataised/hbwchat".toList = false) := by
  constructor
  · decide
  · decide

end Hwbchat
